import Mathlib

set_option linter.unusedVariables false

/-!
Shallow embedding of the collision subsystem (`Collision Detection.js`).

Modelling conventions:
* JS numbers carrying well-formed values are embedded as rationals (`ℚ`);
  all coordinates, radii and rectangle extents in the subsystem are produced
  by `+ - * /2` and comparisons, so `ℚ` is exact for them.
* `Math.sqrt d < s` (with `d` a sum of squares, hence `0 ≤ d`) is encoded
  without square roots as `0 < s ∧ d < s * s`; the lemma
  `circleCollision_eq_sqrt` proves this encoding equal to the real
  square-root comparison.
* The JS `QuadTree` object carries a `divided` flag plus four child fields;
  the children are only ever read while `divided` is true, and `subdivide`
  overwrites them, so a tree is modelled as `leaf` (`divided = false`) or
  `node` (`divided = true`, children NE, NW, SE, SW).
* `insert` recurses through children that `subdivide` freshly allocates, so
  its call depth is not bounded by the argument tree (with capacity 0 the JS
  code can recurse until the stack overflows).  `insert` therefore takes a
  fuel argument counting remaining stack frames; `none` models the crash.
* Callbacks are modelled by returning the list of invocations in order.
* The shipped configuration constant `COLLISION_WORLD_BOUNDS` defines only
  `x`, leaving `y`, `width`, `height` undefined; JS arithmetic on `undefined`
  yields `NaN` and every comparison with `NaN` is false.  A second, small
  layer (`JNum`, suffix `J`) embeds exactly that value space for the claims
  about the shipped configuration.
-/

namespace Collision

/-- Axis-aligned rectangle (JS `Rectangle`): corner `(x, y)`, size `width × height`. -/
structure Rectangle where
  x : ℚ
  y : ℚ
  width : ℚ
  height : ℚ
deriving DecidableEq

/-- Circle (JS `Circle`): center `(x, y)` and `radius`. -/
structure Circle where
  x : ℚ
  y : ℚ
  radius : ℚ
deriving DecidableEq

/-- JS `Rectangle.contains(circle)`: the circle's bounding box lies inside
the rectangle on both axes. -/
def Rectangle.contains (r : Rectangle) (c : Circle) : Bool :=
  decide (c.x - c.radius ≥ r.x) && decide (c.x + c.radius ≤ r.x + r.width) &&
    decide (c.y - c.radius ≥ r.y) && decide (c.y + c.radius ≤ r.y + r.height)

/-- JS `Rectangle.intersects(circle)`: the standard rectangle–circle overlap
test via per-axis distances from the circle center to the rectangle center. -/
def Rectangle.intersects (rect : Rectangle) (c : Circle) : Bool :=
  let xDist : ℚ := |c.x - (rect.x + rect.width / 2)|
  let yDist : ℚ := |c.y - (rect.y + rect.height / 2)|
  let r := c.radius
  let w := rect.width / 2
  let h := rect.height / 2
  if xDist > w + r ∨ yDist > h + r then false
  else if xDist ≤ w ∨ yDist ≤ h then true
  else
    let dx := xDist - w
    let dy := yDist - h
    decide (dx * dx + dy * dy ≤ r * r)

/-- Two closed discs share a point: center distance at most the radius sum
(stated squared, which is equivalent for nonnegative radii). -/
def circlesOverlap (a b : Circle) : Prop :=
  (a.x - b.x) * (a.x - b.x) + (a.y - b.y) * (a.y - b.y) ≤
    (a.radius + b.radius) * (a.radius + b.radius)

/-- JS `QuadTree`, with the `divided` flag folded into the constructor. -/
inductive QuadTree where
  | leaf (boundary : Rectangle) (capacity : ℕ) (objects : List Circle)
  | node (boundary : Rectangle) (capacity : ℕ) (objects : List Circle)
      (ne nw se sw : QuadTree)
deriving DecidableEq

def QuadTree.boundary : QuadTree → Rectangle
  | .leaf b _ _ => b
  | .node b _ _ _ _ _ _ => b

def QuadTree.capacity : QuadTree → ℕ
  | .leaf _ cap _ => cap
  | .node _ cap _ _ _ _ _ => cap

def QuadTree.objects : QuadTree → List Circle
  | .leaf _ _ objs => objs
  | .node _ _ objs _ _ _ _ => objs

def QuadTree.divided : QuadTree → Bool
  | .leaf _ _ _ => false
  | .node _ _ _ _ _ _ _ => true

/-- JS `QuadTree.subdivide()`: the four fresh equal-quadrant children, in the
order NE, NW, SE, SW used by the source. -/
def subChildren (b : Rectangle) (cap : ℕ) : QuadTree × QuadTree × QuadTree × QuadTree :=
  let hw := b.width / 2
  let hh := b.height / 2
  (QuadTree.leaf ⟨b.x + hw, b.y, hw, hh⟩ cap [],
   QuadTree.leaf ⟨b.x, b.y, hw, hh⟩ cap [],
   QuadTree.leaf ⟨b.x + hw, b.y + hh, hw, hh⟩ cap [],
   QuadTree.leaf ⟨b.x, b.y + hh, hw, hh⟩ cap [])

/-- Append a circle to this node's own `objects` list. -/
def QuadTree.pushObj : QuadTree → Circle → QuadTree
  | .leaf b cap objs, c => .leaf b cap (objs ++ [c])
  | .node b cap objs ne nw se sw, c => .node b cap (objs ++ [c]) ne nw se sw

/-- The four children after `if (!this.divided) this.subdivide();`. -/
def QuadTree.childrenOrSub : QuadTree → QuadTree × QuadTree × QuadTree × QuadTree
  | .leaf b cap _ => subChildren b cap
  | .node _ _ _ ne nw se sw => (ne, nw, se, sw)

/-- Replace the four children (marking the node divided). -/
def QuadTree.withChildren : QuadTree → QuadTree → QuadTree → QuadTree → QuadTree → QuadTree
  | .leaf b cap objs, ne, nw, se, sw => .node b cap objs ne nw se sw
  | .node b cap objs _ _ _ _, ne, nw, se, sw => .node b cap objs ne nw se sw

/-- JS `QuadTree.insert(obj)`.  The fuel counts remaining stack frames; the
four child attempts short-circuit on the first accepting child, keeping the
mutations (fresh subdivisions) performed by failed attempts, exactly as the
JS `a.insert(obj) || b.insert(obj) || ...` chain does. -/
def QuadTree.insert : ℕ → QuadTree → Circle → Option (QuadTree × Bool)
  | 0, _, _ => none
  | Nat.succ fuel, t, c =>
    if t.boundary.contains c = false then some (t, false)
    else if t.objects.length < t.capacity then some (t.pushObj c, true)
    else
      match t.childrenOrSub with
      | (ne, nw, se, sw) =>
        match QuadTree.insert fuel ne c with
        | none => none
        | some (ne2, true) => some (t.withChildren ne2 nw se sw, true)
        | some (ne2, false) =>
          match QuadTree.insert fuel nw c with
          | none => none
          | some (nw2, true) => some (t.withChildren ne2 nw2 se sw, true)
          | some (nw2, false) =>
            match QuadTree.insert fuel se c with
            | none => none
            | some (se2, true) => some (t.withChildren ne2 nw2 se2 sw, true)
            | some (se2, false) =>
              match QuadTree.insert fuel sw c with
              | none => none
              | some (sw2, ok) => some (t.withChildren ne2 nw2 se2 sw2, ok)

/-- A sequence of `insert` calls (each with a fresh stack); returns the final
tree and the sublist of circles whose insert returned `true`. -/
def QuadTree.insertAll : ℕ → QuadTree → List Circle → Option (QuadTree × List Circle)
  | _, t, [] => some (t, [])
  | fuel, t, c :: cs =>
    match QuadTree.insert fuel t c with
    | none => none
    | some (t2, ok) =>
      match QuadTree.insertAll fuel t2 cs with
      | none => none
      | some (t3, acc) => some (t3, if ok then c :: acc else acc)

/-- JS `QuadTree.clear()`: empty the object list and drop the subdivision.
(The JS code keeps stale child pointers but resets `divided`, and children
are only ever read while `divided` is true, so the observable state is an
empty leaf.) -/
def QuadTree.clear : QuadTree → QuadTree
  | .leaf b cap _ => .leaf b cap []
  | .node b cap _ _ _ _ _ => .leaf b cap []

/-- JS `QuadTree.retrieve(circle, found)`: prune on `intersects`, append this
node's objects, then recurse into NE, NW, SE, SW. -/
def QuadTree.retrieve : QuadTree → Circle → List Circle → List Circle
  | .leaf b _ objs, c, found =>
    if b.intersects c = true then found ++ objs else found
  | .node b _ objs ne nw se sw, c, found =>
    if b.intersects c = true then
      QuadTree.retrieve sw c
        (QuadTree.retrieve se c
          (QuadTree.retrieve nw c
            (QuadTree.retrieve ne c (found ++ objs))))
    else found

/-- Every circle stored anywhere in the tree, in retrieval order. -/
def QuadTree.storedList : QuadTree → List Circle
  | .leaf _ _ objs => objs
  | .node _ _ objs ne nw se sw =>
    objs ++ ne.storedList ++ nw.storedList ++ se.storedList ++ sw.storedList

/-- Rectangle `inner` lies inside `outer` corner-to-corner. -/
def rectInRect (inner outer : Rectangle) : Prop :=
  outer.x ≤ inner.x ∧ inner.x + inner.width ≤ outer.x + outer.width ∧
    outer.y ≤ inner.y ∧ inner.y + inner.height ≤ outer.y + outer.height

/-- Structural invariant of trees built by inserts: nonnegative extents,
every stored circle accepted by its node's `contains`, children inside the
parent rectangle. -/
def QuadTree.wf : QuadTree → Prop
  | .leaf b _ objs =>
      (0 ≤ b.width ∧ 0 ≤ b.height) ∧ ∀ c ∈ objs, b.contains c = true
  | .node b _ objs ne nw se sw =>
      ((0 ≤ b.width ∧ 0 ≤ b.height) ∧ ∀ c ∈ objs, b.contains c = true) ∧
        (rectInRect ne.boundary b ∧ rectInRect nw.boundary b ∧
          rectInRect se.boundary b ∧ rectInRect sw.boundary b) ∧
        (ne.wf ∧ nw.wf ∧ se.wf ∧ sw.wf)

/-- Every leaf holds at most its configured capacity. -/
def QuadTree.leafCapOk : QuadTree → Prop
  | .leaf _ cap objs => objs.length ≤ cap
  | .node _ _ _ ne nw se sw =>
    ne.leafCapOk ∧ nw.leafCapOk ∧ se.leafCapOk ∧ sw.leafCapOk

/-- Every divided node is full (holds at least its capacity). -/
def QuadTree.dividedFull : QuadTree → Prop
  | .leaf _ _ _ => True
  | .node _ cap objs ne nw se sw =>
    cap ≤ objs.length ∧ ne.dividedFull ∧ nw.dividedFull ∧ se.dividedFull ∧ sw.dividedFull

/-- A tree state reachable by inserts and clears from an empty index.
`clear` resets the tree to the empty leaf with the same boundary and
capacity, so any insert/clear history collapses to a plain insert sequence
from an empty leaf. -/
def QuadTree.Reachable (t : QuadTree) : Prop :=
  ∃ b cap fuel cs acc, QuadTree.insertAll fuel (QuadTree.leaf b cap []) cs = some (t, acc)

/-! Collision engine (`CollisionEngine`), over per-tick entity snapshots. -/

/-- Player record of the per-tick snapshot: `{x, y, radius?}`. -/
structure Player where
  x : ℚ
  y : ℚ
  radius : Option ℚ
deriving DecidableEq

/-- Projectile record of the per-tick snapshot: `{x, y}`. -/
structure Projectile where
  x : ℚ
  y : ℚ
deriving DecidableEq

/-- Per-tick entity snapshot consumed by the engine. -/
structure GameState where
  players : List Player
  projectiles : List Projectile

/-- JS `v || d` on a possibly-missing numeric field: the default replaces a
missing field and also a stored `0` (both are falsy). -/
def jsOr (v : Option ℚ) (d : ℚ) : ℚ :=
  match v with
  | none => d
  | some r => if r = 0 then d else r

/-- Raw argument to `circleCollision`: `x`, `y`, possibly-missing `radius`. -/
structure RawCircle where
  x : ℚ
  y : ℚ
  radius : Option ℚ

/-- JS `CollisionEngine.circleCollision(a, b)`:
`Math.sqrt(dx*dx + dy*dy) < (a.radius || 2) + (b.radius || 2)`, encoded
without the square root: for `0 ≤ v`, `Math.sqrt v < s ↔ 0 < s ∧ v < s * s`
(`circleCollision_eq_sqrt` proves the encoding correct). -/
def circleCollision (a b : RawCircle) : Bool :=
  let s := jsOr a.radius 2 + jsOr b.radius 2
  decide (0 < s) &&
    decide ((a.x - b.x) * (a.x - b.x) + (a.y - b.y) * (a.y - b.y) < s * s)

/-- The circle `update` inserts for a player: `new Circle(x, y, radius || 12)`. -/
def playerCircle (p : Player) : Circle := ⟨p.x, p.y, jsOr p.radius 12⟩

/-- The circle `update` inserts for a projectile: `new Circle(x, y, 2)`. -/
def projectileCircle (p : Projectile) : Circle := ⟨p.x, p.y, 2⟩

/-- Engine state: the `USE_QUADTREE` flag and the quad-tree instance. -/
structure Engine where
  useQuadTree : Bool
  tree : QuadTree

/-- JS `CollisionEngine.update(gameState)`: no-op when disabled, otherwise
clear the tree and insert a circle per player then per projectile
(insert results are discarded by the JS code). -/
def Engine.update (fuel : ℕ) (e : Engine) (gs : GameState) : Option Engine :=
  if e.useQuadTree = false then some e
  else
    match QuadTree.insertAll fuel e.tree.clear
        (gs.players.map playerCircle ++ gs.projectiles.map projectileCircle) with
    | none => none
    | some (t, _) => some { e with tree := t }

/-- A stored circle as it reaches `circleCollision` (its `radius` field is
present). -/
def circleRaw (c : Circle) : RawCircle := ⟨c.x, c.y, some c.radius⟩

/-- A projectile record as it reaches `circleCollision` (no `radius` field). -/
def projectileRaw (p : Projectile) : RawCircle := ⟨p.x, p.y, none⟩

/-- One projectile's confirmed hits: broad-phase `retrieve` with the probe
circle `new Circle(x, y, 2)`, then the exact narrow-phase filter. -/
def projectileHits (t : QuadTree) (p : Projectile) : List Circle :=
  (t.retrieve ⟨p.x, p.y, 2⟩ []).filter
    (fun tgt => circleCollision (projectileRaw p) (circleRaw tgt))

/-- JS `CollisionEngine.checkCollisions(gameState, handleProjectileHit)`:
the list of `(projectile, target)` callback invocations, in call order. -/
def Engine.checkCollisions (e : Engine) (gs : GameState) : List (Projectile × Circle) :=
  if e.useQuadTree = false then []
  else gs.projectiles.flatMap (fun p => (projectileHits e.tree p).map (fun tgt => (p, tgt)))

/-! JS-value layer for the shipped configuration.  `COLLISION_WORLD_BOUNDS`
is `{ x: 0 }`, so the shipped boundary rectangle has `y`, `width`, `height`
undefined.  `JNum` is a JS numeric value that may be `NaN` (arithmetic on
`undefined` yields `NaN`, any comparison involving `NaN` is false). -/

/-- A JS numeric value: `none` is `NaN` (or `undefined` entering arithmetic). -/
def JNum := Option ℚ

/-- A well-formed number as a `JNum`. -/
def jval (q : ℚ) : JNum := some q

/-- The value `NaN` (also the result of arithmetic on `undefined`). -/
def jnan : JNum := none

def jadd : JNum → JNum → JNum
  | some a, some b => some (a + b)
  | _, _ => none

def jsub : JNum → JNum → JNum
  | some a, some b => some (a - b)
  | _, _ => none

def jmul : JNum → JNum → JNum
  | some a, some b => some (a * b)
  | _, _ => none

/-- JS `v / 2`. -/
def jhalf : JNum → JNum
  | some a => some (a / 2)
  | none => none

/-- JS `Math.abs`. -/
def jabs : JNum → JNum
  | some a => some |a|
  | none => none

/-- JS `<=`: false whenever either side is `NaN`. -/
def jle : JNum → JNum → Bool
  | some a, some b => decide (a ≤ b)
  | _, _ => false

/-- JS `<`: false whenever either side is `NaN`. -/
def jlt : JNum → JNum → Bool
  | some a, some b => decide (a < b)
  | _, _ => false

/-- JS `>`. -/
def jgt (a b : JNum) : Bool := jlt b a

/-- JS `>=`. -/
def jge (a b : JNum) : Bool := jle b a

/-- A rectangle whose fields are JS values (possibly `NaN`/undefined). -/
structure JRect where
  x : JNum
  y : JNum
  width : JNum
  height : JNum

/-- JS `Rectangle.contains` over JS values (the circle argument is a
well-formed circle, as every circle built by `update` is). -/
def JRect.containsJ (r : JRect) (c : Circle) : Bool :=
  jge (jsub (jval c.x) (jval c.radius)) r.x &&
    jle (jadd (jval c.x) (jval c.radius)) (jadd r.x r.width) &&
    jge (jsub (jval c.y) (jval c.radius)) r.y &&
    jle (jadd (jval c.y) (jval c.radius)) (jadd r.y r.height)

/-- JS `Rectangle.intersects` over JS values. -/
def JRect.intersectsJ (rect : JRect) (c : Circle) : Bool :=
  let xDist := jabs (jsub (jval c.x) (jadd rect.x (jhalf rect.width)))
  let yDist := jabs (jsub (jval c.y) (jadd rect.y (jhalf rect.height)))
  let r := jval c.radius
  let w := jhalf rect.width
  let h := jhalf rect.height
  if (jgt xDist (jadd w r) || jgt yDist (jadd h r)) = true then false
  else if (jle xDist w || jle yDist h) = true then true
  else
    let dx := jsub xDist w
    let dy := jsub yDist h
    jle (jadd (jmul dx dx) (jmul dy dy)) (jmul r r)

/-- Quad tree whose boundary rectangles are JS-value rectangles. -/
inductive QuadTreeJ where
  | leaf (boundary : JRect) (capacity : ℕ) (objects : List Circle)
  | node (boundary : JRect) (capacity : ℕ) (objects : List Circle)
      (ne nw se sw : QuadTreeJ)

def QuadTreeJ.boundary : QuadTreeJ → JRect
  | .leaf b _ _ => b
  | .node b _ _ _ _ _ _ => b

def QuadTreeJ.objects : QuadTreeJ → List Circle
  | .leaf _ _ objs => objs
  | .node _ _ objs _ _ _ _ => objs

def QuadTreeJ.capacity : QuadTreeJ → ℕ
  | .leaf _ cap _ => cap
  | .node _ cap _ _ _ _ _ => cap

def QuadTreeJ.pushObj : QuadTreeJ → Circle → QuadTreeJ
  | .leaf b cap objs, c => .leaf b cap (objs ++ [c])
  | .node b cap objs ne nw se sw, c => .node b cap (objs ++ [c]) ne nw se sw

/-- JS `subdivide` over JS values (`x + width / 2` etc.). -/
def subChildrenJ (b : JRect) (cap : ℕ) : QuadTreeJ × QuadTreeJ × QuadTreeJ × QuadTreeJ :=
  let hw := jhalf b.width
  let hh := jhalf b.height
  (QuadTreeJ.leaf ⟨jadd b.x hw, b.y, hw, hh⟩ cap [],
   QuadTreeJ.leaf ⟨b.x, b.y, hw, hh⟩ cap [],
   QuadTreeJ.leaf ⟨jadd b.x hw, jadd b.y hh, hw, hh⟩ cap [],
   QuadTreeJ.leaf ⟨b.x, jadd b.y hh, hw, hh⟩ cap [])

def QuadTreeJ.childrenOrSub : QuadTreeJ → QuadTreeJ × QuadTreeJ × QuadTreeJ × QuadTreeJ
  | .leaf b cap _ => subChildrenJ b cap
  | .node _ _ _ ne nw se sw => (ne, nw, se, sw)

def QuadTreeJ.withChildren : QuadTreeJ → QuadTreeJ → QuadTreeJ → QuadTreeJ → QuadTreeJ → QuadTreeJ
  | .leaf b cap objs, ne, nw, se, sw => .node b cap objs ne nw se sw
  | .node b cap objs _ _ _ _, ne, nw, se, sw => .node b cap objs ne nw se sw

/-- JS `QuadTree.insert` over JS values. -/
def QuadTreeJ.insert : ℕ → QuadTreeJ → Circle → Option (QuadTreeJ × Bool)
  | 0, _, _ => none
  | Nat.succ fuel, t, c =>
    if t.boundary.containsJ c = false then some (t, false)
    else if t.objects.length < t.capacity then some (t.pushObj c, true)
    else
      match t.childrenOrSub with
      | (ne, nw, se, sw) =>
        match QuadTreeJ.insert fuel ne c with
        | none => none
        | some (ne2, true) => some (t.withChildren ne2 nw se sw, true)
        | some (ne2, false) =>
          match QuadTreeJ.insert fuel nw c with
          | none => none
          | some (nw2, true) => some (t.withChildren ne2 nw2 se sw, true)
          | some (nw2, false) =>
            match QuadTreeJ.insert fuel se c with
            | none => none
            | some (se2, true) => some (t.withChildren ne2 nw2 se2 sw, true)
            | some (se2, false) =>
              match QuadTreeJ.insert fuel sw c with
              | none => none
              | some (sw2, ok) => some (t.withChildren ne2 nw2 se2 sw2, ok)

def QuadTreeJ.insertAll : ℕ → QuadTreeJ → List Circle → Option (QuadTreeJ × List Circle)
  | _, t, [] => some (t, [])
  | fuel, t, c :: cs =>
    match QuadTreeJ.insert fuel t c with
    | none => none
    | some (t2, ok) =>
      match QuadTreeJ.insertAll fuel t2 cs with
      | none => none
      | some (t3, acc) => some (t3, if ok then c :: acc else acc)

def QuadTreeJ.clear : QuadTreeJ → QuadTreeJ
  | .leaf b cap _ => .leaf b cap []
  | .node b cap _ _ _ _ _ => .leaf b cap []

def QuadTreeJ.retrieve : QuadTreeJ → Circle → List Circle → List Circle
  | .leaf b _ objs, c, found =>
    if b.intersectsJ c = true then found ++ objs else found
  | .node b _ objs ne nw se sw, c, found =>
    if b.intersectsJ c = true then
      QuadTreeJ.retrieve sw c
        (QuadTreeJ.retrieve se c
          (QuadTreeJ.retrieve nw c
            (QuadTreeJ.retrieve ne c (found ++ objs))))
    else found

/-- Shipped `COLLISION_WORLD_BOUNDS = { x: 0 }`: only `x` is defined, so the
boundary rectangle is `Rectangle(0, undefined, undefined, undefined)`. -/
def shippedBoundary : JRect := ⟨jval 0, jnan, jnan, jnan⟩

/-- The shipped static `CollisionEngine.quadTree` (capacity 4). -/
def shippedTree : QuadTreeJ := QuadTreeJ.leaf shippedBoundary 4 []

/-- Engine state over JS values (`USE_QUADTREE` and the tree instance). -/
structure EngineJ where
  useQuadTree : Bool
  tree : QuadTreeJ

/-- The shipped engine: `USE_QUADTREE = true` with the shipped tree. -/
def shippedEngine : EngineJ := ⟨true, shippedTree⟩

/-- JS `CollisionEngine.update` over the JS-value tree. -/
def EngineJ.update (fuel : ℕ) (e : EngineJ) (gs : GameState) : Option EngineJ :=
  if e.useQuadTree = false then some e
  else
    match QuadTreeJ.insertAll fuel e.tree.clear
        (gs.players.map playerCircle ++ gs.projectiles.map projectileCircle) with
    | none => none
    | some (t, _) => some { e with tree := t }

def projectileHitsJ (t : QuadTreeJ) (p : Projectile) : List Circle :=
  (t.retrieve ⟨p.x, p.y, 2⟩ []).filter
    (fun tgt => circleCollision (projectileRaw p) (circleRaw tgt))

/-- JS `CollisionEngine.checkCollisions` over the JS-value tree. -/
def EngineJ.checkCollisions (e : EngineJ) (gs : GameState) : List (Projectile × Circle) :=
  if e.useQuadTree = false then []
  else gs.projectiles.flatMap (fun p => (projectileHitsJ e.tree p).map (fun tgt => (p, tgt)))

/- Sanity examples (concrete evaluation of the embedding). -/

example :
    (Rectangle.mk 0 0 1000 1000).contains ⟨496, 496, 12⟩ = true := by
  norm_num [Rectangle.contains]

example :
    (Rectangle.mk 500 0 500 500).contains ⟨500, 500, 12⟩ = false := by
  norm_num [Rectangle.contains]

example :
    QuadTree.insert 3 (QuadTree.leaf ⟨0, 0, 100, 100⟩ 1 []) ⟨10, 10, 2⟩ =
      some (QuadTree.leaf ⟨0, 0, 100, 100⟩ 1 [⟨10, 10, 2⟩], true) := by
  norm_num [QuadTree.insert, QuadTree.boundary, QuadTree.objects, QuadTree.capacity,
    QuadTree.pushObj, Rectangle.contains]

/-! Further definitions used by the statements. -/

/-- The stored circles as a multiset (insertion can land a circle at any
node, so positions are irrelevant; multiplicities are not). -/
def QuadTree.stored (t : QuadTree) : Multiset Circle := (t.storedList : Multiset Circle)

/-- The circle's bounding box lies inside `B` (the `contains` condition as a
proposition, used for regions enclosing the storing node). -/
def containedIn (B : Rectangle) (c : Circle) : Prop :=
  B.x ≤ c.x - c.radius ∧ c.x + c.radius ≤ B.x + B.width ∧
    B.y ≤ c.y - c.radius ∧ c.y + c.radius ≤ B.y + B.height

/-- The narrow-phase success condition for a player against a projectile:
center distance strictly below the sum of the player's effective radius
(`radius || 12`) and the projectile radius `2` (sqrt-free encoding). -/
def hitQualifies (pr : Projectile) (p : Player) : Prop :=
  0 < jsOr p.radius 12 + 2 ∧
    (p.x - pr.x) * (p.x - pr.x) + (p.y - pr.y) * (p.y - pr.y) <
      (jsOr p.radius 12 + 2) * (jsOr p.radius 12 + 2)

/-- Modelled from the spec (§4.2 `insert` contract), for comparison with the
source's `QuadTree.insert`: reject when `contains` fails; when the node is a
leaf with room, append and accept; otherwise subdivide if not already
subdivided and try the four children in the fixed order NE, NW, SE, SW,
short-circuiting on the first acceptance and returning false only when no
child accepts. -/
def insertSpec : ℕ → QuadTree → Circle → Option (QuadTree × Bool)
  | 0, _, _ => none
  | Nat.succ fuel, t, c =>
    if t.boundary.contains c = false then some (t, false)
    else if t.divided = false ∧ t.objects.length < t.capacity then
      some (t.pushObj c, true)
    else
      match t.childrenOrSub with
      | (ne, nw, se, sw) =>
        match insertSpec fuel ne c with
        | none => none
        | some (ne2, true) => some (t.withChildren ne2 nw se sw, true)
        | some (ne2, false) =>
          match insertSpec fuel nw c with
          | none => none
          | some (nw2, true) => some (t.withChildren ne2 nw2 se sw, true)
          | some (nw2, false) =>
            match insertSpec fuel se c with
            | none => none
            | some (se2, true) => some (t.withChildren ne2 nw2 se2 sw, true)
            | some (se2, false) =>
              match insertSpec fuel sw c with
              | none => none
              | some (sw2, ok) => some (t.withChildren ne2 nw2 se2 sw2, ok)

/-- Counterexample scenario for the end-to-end claim: five players within a
50×50 box around the midlines of the world, projectile at their centroid. -/
def cexPlayers : List Player :=
  [⟨496, 496, none⟩, ⟨504, 496, none⟩, ⟨496, 504, none⟩, ⟨504, 504, none⟩,
    ⟨500, 500, none⟩]

def cexProj : Projectile := ⟨500, 500⟩

/-- The tree `update` builds in the counterexample scenario: the fifth
player and the projectile straddle both subdivision midlines, every child
rejects them, and they are silently dropped from the index. -/
def cexTree : QuadTree :=
  QuadTree.node ⟨0, 0, 1000, 1000⟩ 4
    [⟨496, 496, 12⟩, ⟨504, 496, 12⟩, ⟨496, 504, 12⟩, ⟨504, 504, 12⟩]
    (QuadTree.leaf ⟨500, 0, 500, 500⟩ 4 [])
    (QuadTree.leaf ⟨0, 0, 500, 500⟩ 4 [])
    (QuadTree.leaf ⟨500, 500, 500, 500⟩ 4 [])
    (QuadTree.leaf ⟨0, 500, 500, 500⟩ 4 [])

/-- Witness scenario for the amended end-to-end claim: the cluster avoids
the midlines, so every insert succeeds. -/
def witPlayers : List Player :=
  [⟨100, 100, none⟩, ⟨110, 100, none⟩, ⟨100, 110, none⟩, ⟨110, 110, none⟩,
    ⟨105, 105, none⟩]

def witProj : Projectile := ⟨105, 105⟩

/-- The tree `update` builds in the witness scenario. -/
def witTree : QuadTree :=
  QuadTree.node ⟨0, 0, 1000, 1000⟩ 4
    [⟨100, 100, 12⟩, ⟨110, 100, 12⟩, ⟨100, 110, 12⟩, ⟨110, 110, 12⟩]
    (QuadTree.leaf ⟨500, 0, 500, 500⟩ 4 [])
    (QuadTree.leaf ⟨0, 0, 500, 500⟩ 4 [⟨105, 105, 12⟩, ⟨105, 105, 2⟩])
    (QuadTree.leaf ⟨500, 500, 500, 500⟩ 4 [])
    (QuadTree.leaf ⟨0, 500, 500, 500⟩ 4 [])

/-! Helper lemmas. -/

lemma withChildren_boundary (t a b c d : QuadTree) :
    (t.withChildren a b c d).boundary = t.boundary := by
  cases t <;> rfl

lemma withChildren_capacity (t a b c d : QuadTree) :
    (t.withChildren a b c d).capacity = t.capacity := by
  cases t <;> rfl

lemma withChildren_storedList (t a b c d : QuadTree) :
    (t.withChildren a b c d).storedList =
      t.objects ++ a.storedList ++ b.storedList ++ c.storedList ++ d.storedList := by
  cases t <;> rfl

lemma pushObj_boundary (t : QuadTree) (c : Circle) : (t.pushObj c).boundary = t.boundary := by
  cases t <;> rfl

lemma pushObj_capacity (t : QuadTree) (c : Circle) : (t.pushObj c).capacity = t.capacity := by
  cases t <;> rfl

lemma pushObj_stored (t : QuadTree) (c : Circle) :
    (t.pushObj c).stored = c ::ₘ t.stored := by
  cases t <;> simp [QuadTree.pushObj, QuadTree.stored, QuadTree.storedList]

/-- Decomposition of `storedList` in terms of `childrenOrSub`. -/
lemma stored_childrenOrSub (t a b c d : QuadTree) (h : t.childrenOrSub = (a, b, c, d)) :
    t.stored = ↑t.objects + a.stored + b.stored + c.stored + d.stored := by
  cases t with
  | leaf bd cap objs =>
    simp only [QuadTree.childrenOrSub, subChildren, Prod.mk.injEq] at h
    obtain ⟨h1, h2, h3, h4⟩ := h
    subst h1; subst h2; subst h3; subst h4
    simp [QuadTree.stored, QuadTree.storedList, QuadTree.objects]
  | node bd cap objs ne nw se sw =>
    simp only [QuadTree.childrenOrSub, Prod.mk.injEq] at h
    obtain ⟨h1, h2, h3, h4⟩ := h
    subst h1; subst h2; subst h3; subst h4
    simp [QuadTree.stored, QuadTree.storedList, QuadTree.objects]

lemma withChildren_stored (t a b c d : QuadTree) :
    (t.withChildren a b c d).stored =
      ↑t.objects + a.stored + b.stored + c.stored + d.stored := by
  cases t <;> simp [QuadTree.withChildren, QuadTree.stored, QuadTree.storedList,
    QuadTree.objects]

lemma fresh_leaf_wf (R : Rectangle) (cap : ℕ) (hw : 0 ≤ R.width) (hh : 0 ≤ R.height) :
    (QuadTree.leaf R cap []).wf := by
  simp [QuadTree.wf, hw, hh]

/-- The four `childrenOrSub` children of a well-formed tree are well-formed
and sit inside the parent rectangle. -/
lemma childrenOrSub_facts (t ne nw se sw : QuadTree) (hwf : t.wf)
    (h : t.childrenOrSub = (ne, nw, se, sw)) :
    (ne.wf ∧ nw.wf ∧ se.wf ∧ sw.wf) ∧
      (rectInRect ne.boundary t.boundary ∧ rectInRect nw.boundary t.boundary ∧
        rectInRect se.boundary t.boundary ∧ rectInRect sw.boundary t.boundary) := by
  cases t with
  | leaf B cap objs =>
    obtain ⟨⟨hw, hh⟩, -⟩ := hwf
    simp only [QuadTree.childrenOrSub, subChildren, Prod.mk.injEq] at h
    obtain ⟨h1, h2, h3, h4⟩ := h
    subst h1; subst h2; subst h3; subst h4
    refine ⟨⟨?_, ?_, ?_, ?_⟩, ?_, ?_, ?_, ?_⟩ <;>
      first
        | exact fresh_leaf_wf _ _ (by linarith) (by linarith)
        | (simp only [rectInRect, QuadTree.boundary]; and_intros <;> linarith)
  | node B cap objs ne0 nw0 se0 sw0 =>
    simp only [QuadTree.childrenOrSub, Prod.mk.injEq] at h
    obtain ⟨h1, h2, h3, h4⟩ := h
    subst h1; subst h2; subst h3; subst h4
    obtain ⟨-, hrects, hwfs⟩ := hwf
    exact ⟨⟨hwfs.1, hwfs.2.1, hwfs.2.2.1, hwfs.2.2.2⟩,
      hrects.1, hrects.2.1, hrects.2.2.1, hrects.2.2.2⟩

lemma childrenOrSub_leafCapOk (t ne nw se sw : QuadTree) (h : t.leafCapOk)
    (heq : t.childrenOrSub = (ne, nw, se, sw)) :
    ne.leafCapOk ∧ nw.leafCapOk ∧ se.leafCapOk ∧ sw.leafCapOk := by
  cases t with
  | leaf B cap objs =>
    simp only [QuadTree.childrenOrSub, subChildren, Prod.mk.injEq] at heq
    obtain ⟨h1, h2, h3, h4⟩ := heq
    subst h1; subst h2; subst h3; subst h4
    simp [QuadTree.leafCapOk]
  | node B cap objs a b c d =>
    simp only [QuadTree.childrenOrSub, Prod.mk.injEq] at heq
    obtain ⟨h1, h2, h3, h4⟩ := heq
    subst h1; subst h2; subst h3; subst h4
    exact h

lemma childrenOrSub_dividedFull (t ne nw se sw : QuadTree) (h : t.dividedFull)
    (heq : t.childrenOrSub = (ne, nw, se, sw)) :
    ne.dividedFull ∧ nw.dividedFull ∧ se.dividedFull ∧ sw.dividedFull := by
  cases t with
  | leaf B cap objs =>
    simp only [QuadTree.childrenOrSub, subChildren, Prod.mk.injEq] at heq
    obtain ⟨h1, h2, h3, h4⟩ := heq
    subst h1; subst h2; subst h3; subst h4
    simp [QuadTree.dividedFull]
  | node B cap objs a b c d =>
    simp only [QuadTree.childrenOrSub, Prod.mk.injEq] at heq
    obtain ⟨h1, h2, h3, h4⟩ := heq
    subst h1; subst h2; subst h3; subst h4
    exact ⟨h.2.1, h.2.2.1, h.2.2.2.1, h.2.2.2.2⟩

lemma withChildren_wf (t a b c d : QuadTree) (hwf : t.wf)
    (ha : a.wf) (hb : b.wf) (hc : c.wf) (hd : d.wf)
    (hra : rectInRect a.boundary t.boundary) (hrb : rectInRect b.boundary t.boundary)
    (hrc : rectInRect c.boundary t.boundary) (hrd : rectInRect d.boundary t.boundary) :
    (t.withChildren a b c d).wf := by
  cases t with
  | leaf B cap objs =>
    obtain ⟨hdims, hobjs⟩ := hwf
    exact ⟨⟨hdims, hobjs⟩, ⟨hra, hrb, hrc, hrd⟩, ha, hb, hc, hd⟩
  | node B cap objs w x y z =>
    obtain ⟨hown, -, -⟩ := hwf
    exact ⟨hown, ⟨hra, hrb, hrc, hrd⟩, ha, hb, hc, hd⟩

lemma withChildren_leafCapOk (t a b c d : QuadTree)
    (ha : a.leafCapOk) (hb : b.leafCapOk) (hc : c.leafCapOk) (hd : d.leafCapOk) :
    (t.withChildren a b c d).leafCapOk := by
  cases t <;> exact ⟨ha, hb, hc, hd⟩

lemma withChildren_dividedFull (t a b c d : QuadTree)
    (hfull : t.capacity ≤ t.objects.length)
    (ha : a.dividedFull) (hb : b.dividedFull) (hc : c.dividedFull) (hd : d.dividedFull) :
    (t.withChildren a b c d).dividedFull := by
  cases t <;> exact ⟨hfull, ha, hb, hc, hd⟩

lemma pushObj_wf (t : QuadTree) (c : Circle) (hwf : t.wf)
    (hc : t.boundary.contains c = true) : (t.pushObj c).wf := by
  cases t with
  | leaf B cap objs =>
    obtain ⟨hdims, hobjs⟩ := hwf
    refine ⟨hdims, ?_⟩
    intro x hx
    rcases List.mem_append.1 hx with hx | hx
    · exact hobjs x hx
    · rcases List.mem_singleton.1 hx with rfl
      exact hc
  | node B cap objs ne nw se sw =>
    obtain ⟨⟨hdims, hobjs⟩, hrects, hwfs⟩ := hwf
    refine ⟨⟨hdims, ?_⟩, hrects, hwfs⟩
    intro x hx
    rcases List.mem_append.1 hx with hx | hx
    · exact hobjs x hx
    · rcases List.mem_singleton.1 hx with rfl
      exact hc

lemma pushObj_leafCapOk (t : QuadTree) (c : Circle) (h : t.leafCapOk)
    (hlen : t.objects.length < t.capacity) : (t.pushObj c).leafCapOk := by
  cases t with
  | leaf B cap objs =>
    simp only [QuadTree.objects, QuadTree.capacity] at hlen
    simpa [QuadTree.pushObj, QuadTree.leafCapOk] using hlen
  | node B cap objs ne nw se sw => exact h

lemma pushObj_dividedFull (t : QuadTree) (c : Circle) (h : t.dividedFull) :
    (t.pushObj c).dividedFull := by
  cases t with
  | leaf B cap objs => trivial
  | node B cap objs ne nw se sw =>
    refine ⟨?_, h.2.1, h.2.2.1, h.2.2.2.1, h.2.2.2.2⟩
    simpa using Nat.le_succ_of_le h.1

/-- Conclusions of the insert master lemma for the children case, assembled
from per-child facts. -/
lemma insert_children_master (t ne nw se sw a b c d : QuadTree) (x : Circle) (ok : Bool)
    (hco : t.childrenOrSub = (ne, nw, se, sw))
    (hlen : ¬ t.objects.length < t.capacity)
    (hba : a.boundary = ne.boundary) (hbb : b.boundary = nw.boundary)
    (hbc : c.boundary = se.boundary) (hbd : d.boundary = sw.boundary)
    (hst : a.stored + b.stored + c.stored + d.stored =
      (if ok then x ::ₘ (ne.stored + nw.stored + se.stored + sw.stored)
        else ne.stored + nw.stored + se.stored + sw.stored))
    (hwa : ne.wf → a.wf) (hwb : nw.wf → b.wf) (hwc : se.wf → c.wf) (hwd : sw.wf → d.wf)
    (hla : ne.leafCapOk → a.leafCapOk) (hlb : nw.leafCapOk → b.leafCapOk)
    (hlc : se.leafCapOk → c.leafCapOk) (hld : sw.leafCapOk → d.leafCapOk)
    (hda : ne.dividedFull → a.dividedFull) (hdb : nw.dividedFull → b.dividedFull)
    (hdc : se.dividedFull → c.dividedFull) (hdd : sw.dividedFull → d.dividedFull) :
    (t.withChildren a b c d).boundary = t.boundary ∧
      (t.withChildren a b c d).capacity = t.capacity ∧
      (t.withChildren a b c d).stored = (if ok then x ::ₘ t.stored else t.stored) ∧
      (t.wf → (t.withChildren a b c d).wf) ∧
      (t.leafCapOk → (t.withChildren a b c d).leafCapOk) ∧
      (t.dividedFull → (t.withChildren a b c d).dividedFull) := by
  refine ⟨withChildren_boundary .., withChildren_capacity .., ?_, ?_, ?_, ?_⟩
  · rw [withChildren_stored, stored_childrenOrSub t ne nw se sw hco]
    cases ok with
    | true =>
      rw [if_pos rfl] at hst ⊢
      simp only [add_assoc] at hst ⊢
      rw [hst, Multiset.add_cons]
    | false =>
      rw [if_neg (by simp : ¬ (false = true))] at hst ⊢
      simp only [add_assoc] at hst ⊢
      rw [hst]
  · intro hwf
    obtain ⟨⟨hne, hnw, hse, hsw⟩, hrne, hrnw, hrse, hrsw⟩ :=
      childrenOrSub_facts t ne nw se sw hwf hco
    exact withChildren_wf t a b c d hwf (hwa hne) (hwb hnw) (hwc hse) (hwd hsw)
      (hba ▸ hrne) (hbb ▸ hrnw) (hbc ▸ hrse) (hbd ▸ hrsw)
  · intro hl
    obtain ⟨h1, h2, h3, h4⟩ := childrenOrSub_leafCapOk t ne nw se sw hl hco
    exact withChildren_leafCapOk t a b c d (hla h1) (hlb h2) (hlc h3) (hld h4)
  · intro hd2
    obtain ⟨h1, h2, h3, h4⟩ := childrenOrSub_dividedFull t ne nw se sw hd2 hco
    exact withChildren_dividedFull t a b c d (Nat.not_lt.1 hlen)
      (hda h1) (hdb h2) (hdc h3) (hdd h4)

/-- Master lemma about one `insert` call: boundary and capacity are
preserved, the stored multiset gains exactly the circle when the call
returns true (and is unchanged when it returns false), and the structural
invariants are preserved. -/
lemma insert_master :
    ∀ (fuel : ℕ) (t : QuadTree) (c : Circle) (t2 : QuadTree) (ok : Bool),
      QuadTree.insert fuel t c = some (t2, ok) →
      t2.boundary = t.boundary ∧ t2.capacity = t.capacity ∧
        t2.stored = (if ok then c ::ₘ t.stored else t.stored) ∧
        (t.wf → t2.wf) ∧ (t.leafCapOk → t2.leafCapOk) ∧
        (t.dividedFull → t2.dividedFull) := by
  intro fuel
  induction fuel with
  | zero =>
    intro t c t2 ok h
    simp [QuadTree.insert] at h
  | succ fuel ih =>
    intro t c t2 ok h
    rw [QuadTree.insert] at h
    by_cases hcont : t.boundary.contains c = false
    · rw [if_pos hcont] at h
      rw [Option.some.injEq, Prod.mk.injEq] at h
      obtain ⟨rfl, rfl⟩ := h
      simp
    · rw [if_neg hcont] at h
      have hcont' : t.boundary.contains c = true := by
        cases hb : t.boundary.contains c
        · exact absurd hb hcont
        · rfl
      by_cases hlen : t.objects.length < t.capacity
      · rw [if_pos hlen] at h
        rw [Option.some.injEq, Prod.mk.injEq] at h
        obtain ⟨rfl, rfl⟩ := h
        refine ⟨pushObj_boundary .., pushObj_capacity .., ?_, ?_, ?_, ?_⟩
        · simp [pushObj_stored]
        · exact fun hw => pushObj_wf _ _ hw hcont'
        · exact fun hl => pushObj_leafCapOk _ _ hl hlen
        · exact fun hd => pushObj_dividedFull _ _ hd
      · rw [if_neg hlen] at h
        rcases hco : t.childrenOrSub with ⟨ne, nw, se, sw⟩
        rw [hco] at h
        dsimp only [] at h
        rcases h1 : QuadTree.insert fuel ne c with - | ⟨ne2, ok1⟩
        · rw [h1] at h; exact absurd h (by simp)
        rw [h1] at h
        obtain ⟨hbne, hcne, hsne, hwne, hlne, hdne⟩ := ih ne c ne2 ok1 h1
        cases ok1 with
        | true =>
          simp only [Option.some.injEq, Prod.mk.injEq] at h
          obtain ⟨rfl, rfl⟩ := h
          refine insert_children_master t ne nw se sw ne2 nw se sw c true hco hlen
            hbne rfl rfl rfl ?_ hwne (fun h => h) (fun h => h) (fun h => h)
            hlne (fun h => h) (fun h => h) (fun h => h)
            hdne (fun h => h) (fun h => h) (fun h => h)
          rw [if_pos rfl] at hsne ⊢
          rw [hsne]
          simp only [Multiset.cons_add]
        | false =>
          simp only [if_neg (by simp : ¬ (false = true))] at hsne
          rcases h2 : QuadTree.insert fuel nw c with - | ⟨nw2, ok2⟩
          · rw [h2] at h; exact absurd h (by simp)
          rw [h2] at h
          obtain ⟨hbnw, hcnw, hsnw, hwnw, hlnw, hdnw⟩ := ih nw c nw2 ok2 h2
          cases ok2 with
          | true =>
            simp only [Option.some.injEq, Prod.mk.injEq] at h
            obtain ⟨rfl, rfl⟩ := h
            refine insert_children_master t ne nw se sw ne2 nw2 se sw c true hco hlen
              hbne hbnw rfl rfl ?_ hwne hwnw (fun h => h) (fun h => h)
              hlne hlnw (fun h => h) (fun h => h)
              hdne hdnw (fun h => h) (fun h => h)
            rw [if_pos rfl] at hsnw ⊢
            rw [hsne, hsnw]
            simp only [Multiset.add_cons, Multiset.cons_add]
          | false =>
            simp only [if_neg (by simp : ¬ (false = true))] at hsnw
            rcases h3 : QuadTree.insert fuel se c with - | ⟨se2, ok3⟩
            · rw [h3] at h; exact absurd h (by simp)
            rw [h3] at h
            obtain ⟨hbse, hcse, hsse, hwse, hlse, hdse⟩ := ih se c se2 ok3 h3
            cases ok3 with
            | true =>
              simp only [Option.some.injEq, Prod.mk.injEq] at h
              obtain ⟨rfl, rfl⟩ := h
              refine insert_children_master t ne nw se sw ne2 nw2 se2 sw c true hco hlen
                hbne hbnw hbse rfl ?_ hwne hwnw hwse (fun h => h)
                hlne hlnw hlse (fun h => h)
                hdne hdnw hdse (fun h => h)
              rw [if_pos rfl] at hsse ⊢
              rw [hsne, hsnw, hsse]
              simp only [Multiset.cons_add, Multiset.add_cons]
            | false =>
              simp only [if_neg (by simp : ¬ (false = true))] at hsse
              rcases h4 : QuadTree.insert fuel sw c with - | ⟨sw2, ok4⟩
              · rw [h4] at h; exact absurd h (by simp)
              rw [h4] at h
              obtain ⟨hbsw, hcsw, hssw, hwsw, hlsw, hdsw⟩ := ih sw c sw2 ok4 h4
              cases ok4 with
              | true =>
                simp only [Option.some.injEq, Prod.mk.injEq] at h
                obtain ⟨rfl, rfl⟩ := h
                refine insert_children_master t ne nw se sw ne2 nw2 se2 sw2 c true hco hlen
                  hbne hbnw hbse hbsw ?_ hwne hwnw hwse hwsw
                  hlne hlnw hlse hlsw
                  hdne hdnw hdse hdsw
                rw [if_pos rfl] at hssw ⊢
                rw [hsne, hsnw, hsse, hssw]
                simp only [Multiset.cons_add, Multiset.add_cons]
              | false =>
                simp only [Option.some.injEq, Prod.mk.injEq] at h
                obtain ⟨rfl, rfl⟩ := h
                refine insert_children_master t ne nw se sw ne2 nw2 se2 sw2 c false hco hlen
                  hbne hbnw hbse hbsw ?_ hwne hwnw hwse hwsw
                  hlne hlnw hlse hlsw
                  hdne hdnw hdse hdsw
                rw [if_neg (by simp : ¬ (false = true))] at hssw ⊢
                rw [hsne, hsnw, hsse, hssw]

/-- The predicate `contains` unfolded to its four inequalities. -/
lemma contains_iff (r : Rectangle) (c : Circle) :
    r.contains c = true ↔
      (r.x ≤ c.x - c.radius ∧ c.x + c.radius ≤ r.x + r.width ∧
        r.y ≤ c.y - c.radius ∧ c.y + c.radius ≤ r.y + r.height) := by
  simp only [Rectangle.contains, Bool.and_eq_true, decide_eq_true_eq, ge_iff_le]
  tauto

/-- Master lemma about a sequence of inserts: boundary and capacity are
preserved, the stored multiset grows by exactly the accepted circles, the
accepted list is a sublist of the input, and the invariants are preserved. -/
lemma insertAll_master (fuel : ℕ) :
    ∀ (cs : List Circle) (t t2 : QuadTree) (acc : List Circle),
      QuadTree.insertAll fuel t cs = some (t2, acc) →
      t2.boundary = t.boundary ∧ t2.capacity = t.capacity ∧
        t2.stored = t.stored + ↑acc ∧ acc.Sublist cs ∧
        (t.wf → t2.wf) ∧ (t.leafCapOk → t2.leafCapOk) ∧
        (t.dividedFull → t2.dividedFull) := by
  intro cs
  induction cs with
  | nil =>
    intro t t2 acc h
    rw [QuadTree.insertAll, Option.some.injEq, Prod.mk.injEq] at h
    obtain ⟨rfl, rfl⟩ := h
    simp
  | cons c cs ih =>
    intro t t2 acc h
    rw [QuadTree.insertAll] at h
    rcases h1 : QuadTree.insert fuel t c with - | ⟨tm, ok⟩
    · rw [h1] at h; exact absurd h (by simp)
    rw [h1] at h
    dsimp only [] at h
    rcases h2 : QuadTree.insertAll fuel tm cs with - | ⟨t3, acc2⟩
    · rw [h2] at h; exact absurd h (by simp)
    rw [h2] at h
    dsimp only [] at h
    rw [Option.some.injEq, Prod.mk.injEq] at h
    obtain ⟨rfl, rfl⟩ := h
    obtain ⟨hb1, hc1, hs1, hw1, hl1, hd1⟩ := insert_master fuel t c tm ok h1
    obtain ⟨hb2, hc2, hs2, hsub2, hw2, hl2, hd2⟩ := ih tm t3 acc2 h2
    refine ⟨hb2.trans hb1, hc2.trans hc1, ?_, ?_,
      fun hw => hw2 (hw1 hw), fun hl => hl2 (hl1 hl), fun hd => hd2 (hd1 hd)⟩
    · rw [hs2, hs1]
      cases ok with
      | true =>
        rw [if_pos rfl, if_pos rfl, ← Multiset.cons_coe, Multiset.cons_add,
          Multiset.add_cons]
      | false =>
        rw [if_neg (by simp : ¬ (false = true)), if_neg (by simp : ¬ (false = true))]
    · cases ok with
      | true =>
        rw [if_pos rfl]
        exact hsub2.cons₂ c
      | false =>
        rw [if_neg (by simp : ¬ (false = true))]
        exact hsub2.cons c

lemma rectInRect_refl (R : Rectangle) : rectInRect R R := by
  refine ⟨le_refl _, le_refl _, le_refl _, le_refl _⟩

lemma rectInRect_trans (A B C : Rectangle) (h1 : rectInRect A B) (h2 : rectInRect B C) :
    rectInRect A C := by
  obtain ⟨a1, a2, a3, a4⟩ := h1
  obtain ⟨b1, b2, b3, b4⟩ := h2
  exact ⟨by linarith, by linarith, by linarith, by linarith⟩

lemma containedIn_mono (R B : Rectangle) (x : Circle) (h : containedIn R x)
    (hr : rectInRect R B) : containedIn B x := by
  obtain ⟨a1, a2, a3, a4⟩ := h
  obtain ⟨b1, b2, b3, b4⟩ := hr
  exact ⟨by linarith, by linarith, by linarith, by linarith⟩

/-- Every stored circle's bounding box lies in the boundary of the
well-formed tree storing it. -/
lemma stored_containedIn : ∀ (t : QuadTree), t.wf →
    ∀ x ∈ t.storedList, containedIn t.boundary x := by
  intro t
  induction t with
  | leaf b cap objs =>
    intro hwf x hx
    exact (contains_iff b x).1 (hwf.2 x hx)
  | node b cap objs ne nw se sw ihne ihnw ihse ihsw =>
    intro hwf x hx
    obtain ⟨⟨hdims, hobjs⟩, ⟨hrne, hrnw, hrse, hrsw⟩, hwne, hwnw, hwse, hwsw⟩ := hwf
    simp only [QuadTree.storedList, List.append_assoc, List.mem_append] at hx
    rcases hx with hx | hx | hx | hx | hx
    · exact (contains_iff b x).1 (hobjs x hx)
    · exact containedIn_mono _ _ _ (ihne hwne x hx) hrne
    · exact containedIn_mono _ _ _ (ihnw hwnw x hx) hrnw
    · exact containedIn_mono _ _ _ (ihse hwse x hx) hrse
    · exact containedIn_mono _ _ _ (ihsw hwsw x hx) hrsw

/-- The accumulator only collects appended results. -/
lemma retrieve_acc : ∀ (t : QuadTree) (q : Circle) (found : List Circle),
    t.retrieve q found = found ++ t.retrieve q [] := by
  intro t
  induction t with
  | leaf b cap objs =>
    intro q found
    simp only [QuadTree.retrieve]
    by_cases hb : b.intersects q = true
    · simp [if_pos hb]
    · simp [if_neg hb]
  | node b cap objs ne nw se sw ihne ihnw ihse ihsw =>
    intro q found
    simp only [QuadTree.retrieve]
    by_cases hb : b.intersects q = true
    · simp only [if_pos hb, List.nil_append]
      rw [ihne q (found ++ objs),
        ihnw q ((found ++ objs) ++ ne.retrieve q []),
        ihse q (((found ++ objs) ++ ne.retrieve q []) ++ nw.retrieve q []),
        ihsw q ((((found ++ objs) ++ ne.retrieve q []) ++ nw.retrieve q []) ++ se.retrieve q [])]
      rw [ihne q objs,
        ihnw q (objs ++ ne.retrieve q []),
        ihse q ((objs ++ ne.retrieve q []) ++ nw.retrieve q []),
        ihsw q (((objs ++ ne.retrieve q []) ++ nw.retrieve q []) ++ se.retrieve q [])]
      simp [List.append_assoc]
    · simp [if_neg hb]

/-- An intersecting node's retrieval decomposes into its own objects
followed by the children's retrievals. -/
lemma retrieve_node_decomp (b : Rectangle) (cap : ℕ) (objs : List Circle)
    (ne nw se sw : QuadTree) (q : Circle) (hb : b.intersects q = true) :
    (QuadTree.node b cap objs ne nw se sw).retrieve q [] =
      objs ++ ne.retrieve q [] ++ nw.retrieve q [] ++ se.retrieve q [] ++ sw.retrieve q [] := by
  simp only [QuadTree.retrieve, if_pos hb, List.nil_append]
  rw [retrieve_acc ne q objs,
    retrieve_acc nw q (objs ++ ne.retrieve q []),
    retrieve_acc se q ((objs ++ ne.retrieve q []) ++ nw.retrieve q []),
    retrieve_acc sw q (((objs ++ ne.retrieve q []) ++ nw.retrieve q []) ++ se.retrieve q [])]

/-- Sufficient condition for `intersects`: both per-axis distances within
range and the circle center projecting inside the rectangle on some axis. -/
lemma intersects_of_axis (rect : Rectangle) (c : Circle)
    (hx : |c.x - (rect.x + rect.width / 2)| ≤ rect.width / 2 + c.radius)
    (hy : |c.y - (rect.y + rect.height / 2)| ≤ rect.height / 2 + c.radius)
    (hor : |c.x - (rect.x + rect.width / 2)| ≤ rect.width / 2 ∨
      |c.y - (rect.y + rect.height / 2)| ≤ rect.height / 2) :
    rect.intersects c = true := by
  simp only [Rectangle.intersects]
  rw [if_neg, if_pos hor]
  push_neg
  exact ⟨hx, hy⟩

/-- Sufficient condition for `intersects`: both per-axis distances within
range and the corner test passing. -/
lemma intersects_of_corner (rect : Rectangle) (c : Circle)
    (hx : |c.x - (rect.x + rect.width / 2)| ≤ rect.width / 2 + c.radius)
    (hy : |c.y - (rect.y + rect.height / 2)| ≤ rect.height / 2 + c.radius)
    (hc : (|c.x - (rect.x + rect.width / 2)| - rect.width / 2) *
        (|c.x - (rect.x + rect.width / 2)| - rect.width / 2) +
        (|c.y - (rect.y + rect.height / 2)| - rect.height / 2) *
        (|c.y - (rect.y + rect.height / 2)| - rect.height / 2) ≤
        c.radius * c.radius) :
    rect.intersects c = true := by
  simp only [Rectangle.intersects]
  rw [if_neg]
  · split
    · rfl
    · exact decide_eq_true hc
  · push_neg
    exact ⟨hx, hy⟩

/-- If the center offset `A` splits as `d + e` with `|e| ≤ W` and the axis
distance `|A|` exceeds `W`, the corner excess is bounded by `d`. -/
lemma corner_sq (A d e W : ℚ) (hA : A = d + e) (he1 : -W ≤ e) (he2 : e ≤ W)
    (hW : W < |A|) : (|A| - W) * (|A| - W) ≤ d * d := by
  rcases abs_cases A with ⟨hab, -⟩ | ⟨hab, -⟩ <;> rw [hab] at hW ⊢
  · have h0 : 0 ≤ A - W := by linarith
    have h1 : A - W ≤ d := by linarith
    nlinarith [mul_self_le_mul_self h0 h1]
  · have h0 : 0 ≤ -A - W := by linarith
    have h1 : -A - W ≤ -d := by linarith
    nlinarith [mul_self_le_mul_self h0 h1]

/-- Key broad-phase soundness fact: a query circle overlapping a circle
whose bounding box lies inside `B` intersects `B`. -/
lemma intersects_of_overlap (B : Rectangle) (x q : Circle)
    (hin : containedIn B x) (hrx : 0 ≤ x.radius) (hrq : 0 ≤ q.radius)
    (hov : circlesOverlap x q) : B.intersects q = true := by
  obtain ⟨h1, h2, h3, h4⟩ := hin
  have hdsq : (q.x - x.x) * (q.x - x.x) + (q.y - x.y) * (q.y - x.y) ≤
      (x.radius + q.radius) * (x.radius + q.radius) := by
    have h := hov
    unfold circlesOverlap at h
    linarith [h]
  rcases eq_or_lt_of_le (by linarith : (0:ℚ) ≤ x.radius + q.radius) with hs | hs
  · -- degenerate: both radii are zero and q sits at x's center
    have hxr : x.radius = 0 := by linarith
    have hqr : q.radius = 0 := by linarith
    have hqx : q.x = x.x := by
      nlinarith [mul_self_nonneg (q.x - x.x), mul_self_nonneg (q.y - x.y)]
    have hqy : q.y = x.y := by
      nlinarith [mul_self_nonneg (q.x - x.x), mul_self_nonneg (q.y - x.y)]
    have hax : |q.x - (B.x + B.width / 2)| ≤ B.width / 2 := by
      rw [hqx]
      exact abs_le.2 ⟨by linarith, by linarith⟩
    have hay : |q.y - (B.y + B.height / 2)| ≤ B.height / 2 := by
      rw [hqy]
      exact abs_le.2 ⟨by linarith, by linarith⟩
    exact intersects_of_axis B q (by linarith) (by linarith) (Or.inl (by linarith))
  · -- place the witness point p on the segment between the two centers
    obtain ⟨T, hT⟩ : ∃ T : ℚ, T = x.radius / (x.radius + q.radius) := ⟨_, rfl⟩
    obtain ⟨px, hpx⟩ : ∃ px : ℚ, px = x.x + T * (q.x - x.x) := ⟨_, rfl⟩
    obtain ⟨py, hpy⟩ : ∃ py : ℚ, py = x.y + T * (q.y - x.y) := ⟨_, rfl⟩
    have hT0 : 0 ≤ T := hT ▸ div_nonneg hrx hs.le
    have hT1 : T ≤ 1 := hT ▸ (div_le_one hs).2 (by linarith)
    have hTs : T * (x.radius + q.radius) = x.radius := by
      rw [hT]; field_simp
    have h1Ts : (1 - T) * (x.radius + q.radius) = q.radius := by
      rw [hT]; field_simp
    have hax2 : (q.x - x.x) * (q.x - x.x) ≤
        (x.radius + q.radius) * (x.radius + q.radius) := by
      nlinarith [hdsq, mul_self_nonneg (q.y - x.y)]
    have hay2 : (q.y - x.y) * (q.y - x.y) ≤
        (x.radius + q.radius) * (x.radius + q.radius) := by
      nlinarith [hdsq, mul_self_nonneg (q.x - x.x)]
    have habs_x : |q.x - x.x| ≤ x.radius + q.radius := by
      have h := abs_le_iff_mul_self_le.2 hax2
      rwa [abs_of_nonneg hs.le] at h
    have habs_y : |q.y - x.y| ≤ x.radius + q.radius := by
      have h := abs_le_iff_mul_self_le.2 hay2
      rwa [abs_of_nonneg hs.le] at h
    obtain ⟨habs_lo_x, habs_up_x⟩ := abs_le.1 habs_x
    obtain ⟨habs_lo_y, habs_up_y⟩ := abs_le.1 habs_y
    have hpx_lo : x.x - x.radius ≤ px := by
      rw [hpx]
      linarith [mul_le_mul_of_nonneg_left habs_lo_x hT0, hTs]
    have hpx_hi : px ≤ x.x + x.radius := by
      rw [hpx]
      linarith [mul_le_mul_of_nonneg_left habs_up_x hT0, hTs]
    have hpy_lo : x.y - x.radius ≤ py := by
      rw [hpy]
      linarith [mul_le_mul_of_nonneg_left habs_lo_y hT0, hTs]
    have hpy_hi : py ≤ x.y + x.radius := by
      rw [hpy]
      linarith [mul_le_mul_of_nonneg_left habs_up_y hT0, hTs]
    have e1 : q.x - px = (1 - T) * (q.x - x.x) := by rw [hpx]; ring
    have e2 : q.y - py = (1 - T) * (q.y - x.y) := by rw [hpy]; ring
    have h1Ts2 : ((1 - T) * (x.radius + q.radius)) * ((1 - T) * (x.radius + q.radius)) =
        q.radius * q.radius := by rw [h1Ts]
    have hqp : (q.x - px) * (q.x - px) + (q.y - py) * (q.y - py) ≤
        q.radius * q.radius := by
      rw [e1, e2]
      linarith [mul_le_mul_of_nonneg_left hdsq (mul_self_nonneg (1 - T)), h1Ts2]
    have hqpx2 : (q.x - px) * (q.x - px) ≤ q.radius * q.radius := by
      linarith [hqp, mul_self_nonneg (q.y - py)]
    have hqpy2 : (q.y - py) * (q.y - py) ≤ q.radius * q.radius := by
      linarith [hqp, mul_self_nonneg (q.x - px)]
    have habs_qpx : |q.x - px| ≤ q.radius := by
      have h := abs_le_iff_mul_self_le.2 hqpx2
      rwa [abs_of_nonneg hrq] at h
    have habs_qpy : |q.y - py| ≤ q.radius := by
      have h := abs_le_iff_mul_self_le.2 hqpy2
      rwa [abs_of_nonneg hrq] at h
    obtain ⟨hqpx_lo, hqpx_up⟩ := abs_le.1 habs_qpx
    obtain ⟨hqpy_lo, hqpy_up⟩ := abs_le.1 habs_qpy
    have hpxB_lo : B.x ≤ px := by linarith
    have hpxB_hi : px ≤ B.x + B.width := by linarith
    have hpyB_lo : B.y ≤ py := by linarith
    have hpyB_hi : py ≤ B.y + B.height := by linarith
    have hxD : |q.x - (B.x + B.width / 2)| ≤ B.width / 2 + q.radius :=
      abs_le.2 ⟨by linarith, by linarith⟩
    have hyD : |q.y - (B.y + B.height / 2)| ≤ B.height / 2 + q.radius :=
      abs_le.2 ⟨by linarith, by linarith⟩
    by_cases hside : |q.x - (B.x + B.width / 2)| ≤ B.width / 2 ∨
        |q.y - (B.y + B.height / 2)| ≤ B.height / 2
    · exact intersects_of_axis B q hxD hyD hside
    · push_neg at hside
      obtain ⟨hsx, hsy⟩ := hside
      apply intersects_of_corner B q hxD hyD
      have hcx : (|q.x - (B.x + B.width / 2)| - B.width / 2) *
          (|q.x - (B.x + B.width / 2)| - B.width / 2) ≤ (q.x - px) * (q.x - px) :=
        corner_sq _ _ (px - (B.x + B.width / 2)) _ (by ring)
          (by linarith) (by linarith) hsx
      have hcy : (|q.y - (B.y + B.height / 2)| - B.height / 2) *
          (|q.y - (B.y + B.height / 2)| - B.height / 2) ≤ (q.y - py) * (q.y - py) :=
        corner_sq _ _ (py - (B.y + B.height / 2)) _ (by ring)
          (by linarith) (by linarith) hsy
      linarith

/-- A query circle centered at `B` with radius at least half of `B`'s
diagonal intersects every rectangle lying inside `B`. -/
lemma intersects_of_cover (B R : Rectangle) (q : Circle)
    (hr : rectInRect R B) (hw : 0 ≤ R.width) (hh : 0 ≤ R.height)
    (hqx : q.x = B.x + B.width / 2) (hqy : q.y = B.y + B.height / 2)
    (hrad : 0 ≤ q.radius)
    (hd : B.width * B.width + B.height * B.height ≤ (2 * q.radius) * (2 * q.radius)) :
    R.intersects q = true := by
  obtain ⟨hr1, hr2, hr3, hr4⟩ := hr
  have hBw : 0 ≤ B.width := by linarith
  have hBh : 0 ≤ B.height := by linarith
  have h2rw : B.width ≤ 2 * q.radius := by
    have hsq : B.width * B.width ≤ (2 * q.radius) * (2 * q.radius) := by
      linarith [mul_self_nonneg B.height]
    have h := abs_le_iff_mul_self_le.2 hsq
    rw [abs_of_nonneg (by linarith : (0:ℚ) ≤ 2 * q.radius)] at h
    linarith [le_abs_self B.width]
  have h2rh : B.height ≤ 2 * q.radius := by
    have hsq : B.height * B.height ≤ (2 * q.radius) * (2 * q.radius) := by
      linarith [mul_self_nonneg B.width]
    have h := abs_le_iff_mul_self_le.2 hsq
    rw [abs_of_nonneg (by linarith : (0:ℚ) ≤ 2 * q.radius)] at h
    linarith [le_abs_self B.height]
  have haxq : |q.x - (R.x + R.width / 2)| ≤ B.width / 2 := by
    rw [hqx]
    exact abs_le.2 ⟨by linarith, by linarith⟩
  have hayq : |q.y - (R.y + R.height / 2)| ≤ B.height / 2 := by
    rw [hqy]
    exact abs_le.2 ⟨by linarith, by linarith⟩
  have hxD : |q.x - (R.x + R.width / 2)| ≤ R.width / 2 + q.radius := by linarith
  have hyD : |q.y - (R.y + R.height / 2)| ≤ R.height / 2 + q.radius := by linarith
  by_cases hside : |q.x - (R.x + R.width / 2)| ≤ R.width / 2 ∨
      |q.y - (R.y + R.height / 2)| ≤ R.height / 2
  · exact intersects_of_axis R q hxD hyD hside
  · push_neg at hside
    obtain ⟨hsx, hsy⟩ := hside
    apply intersects_of_corner R q hxD hyD
    have hax0 : 0 ≤ |q.x - (R.x + R.width / 2)| - R.width / 2 := by linarith
    have hay0 : 0 ≤ |q.y - (R.y + R.height / 2)| - R.height / 2 := by linarith
    have hcx := mul_self_le_mul_self hax0 (by linarith :
      |q.x - (R.x + R.width / 2)| - R.width / 2 ≤ B.width / 2)
    have hcy := mul_self_le_mul_self hay0 (by linarith :
      |q.y - (R.y + R.height / 2)| - R.height / 2 ≤ B.height / 2)
    linarith [hcx, hcy, hd]

/-- For `0 ≤ v`, the JS comparison `Math.sqrt v < s` is exactly
`0 < s ∧ v < s * s`. -/
lemma sqrt_lt_iff_rat (v s : ℚ) (hv : 0 ≤ v) :
    (Real.sqrt (v : ℝ) < (s : ℝ)) ↔ (0 < s ∧ v < s * s) := by
  by_cases hs : 0 < s
  · have hs' : (0 : ℝ) < (s : ℝ) := by exact_mod_cast hs
    rw [Real.sqrt_lt' hs']
    constructor
    · intro h
      refine ⟨hs, ?_⟩
      have : (v : ℝ) < (s : ℝ) * (s : ℝ) := by
        have := h
        rw [sq] at this
        exact this
      exact_mod_cast this
    · intro h
      rw [sq]
      exact_mod_cast h.2
  · constructor
    · intro h
      exact absurd (lt_of_le_of_lt (Real.sqrt_nonneg _) h)
        (by exact_mod_cast not_lt.2 (not_lt.1 hs).le : ¬ ((0:ℝ) < (s:ℝ)))
    · intro h
      exact absurd h.1 hs

/-- The sqrt-free encoding in `circleCollision` agrees with the JS
`Math.sqrt(dx*dx + dy*dy) < (a.radius || 2) + (b.radius || 2)`. -/
lemma circleCollision_eq_sqrt (a b : RawCircle) :
    circleCollision a b = true ↔
      Real.sqrt (((a.x - b.x) * (a.x - b.x) + (a.y - b.y) * (a.y - b.y) : ℚ) : ℝ) <
        ((jsOr a.radius 2 + jsOr b.radius 2 : ℚ) : ℝ) := by
  rw [sqrt_lt_iff_rat _ _ (by nlinarith [mul_self_nonneg (a.x - b.x), mul_self_nonneg (a.y - b.y)])]
  simp only [circleCollision, Bool.and_eq_true, decide_eq_true_eq]

/-! Claim theorems (easy group). -/

/-- C3: for every circle and rectangle with nonnegative radius, width and
height, `contains` implies `intersects`. -/
theorem C3_contains_implies_intersects (r : Rectangle) (c : Circle)
    (hr : 0 ≤ c.radius) (hw : 0 ≤ r.width) (hh : 0 ≤ r.height)
    (h : r.contains c = true) : r.intersects c = true := by
  rw [contains_iff] at h
  obtain ⟨h1, h2, h3, h4⟩ := h
  have hx : |c.x - (r.x + r.width / 2)| ≤ r.width / 2 - c.radius :=
    abs_le.2 ⟨by linarith, by linarith⟩
  have hy : |c.y - (r.y + r.height / 2)| ≤ r.height / 2 - c.radius :=
    abs_le.2 ⟨by linarith, by linarith⟩
  exact intersects_of_axis r c (by linarith) (by linarith) (Or.inl (by linarith))

/-- Witness for C3 at a concrete rectangle and circle. -/
theorem C3_witness : (Rectangle.mk 0 0 100 100).intersects ⟨50, 50, 5⟩ = true :=
  C3_contains_implies_intersects ⟨0, 0, 100, 100⟩ ⟨50, 50, 5⟩ (by norm_num)
    (by norm_num) (by norm_num) (by norm_num [Rectangle.contains])

/-- C7: `clear` is idempotent, returns the tree to an empty leaf with the
same boundary and capacity, and a subsequent `retrieve` with an empty
accumulator returns the empty list for every query circle. -/
theorem C7_clear_idempotent (t : QuadTree) :
    t.clear.clear = t.clear ∧
      t.clear = QuadTree.leaf t.boundary t.capacity [] ∧
      ∀ q : Circle, t.clear.retrieve q [] = [] := by
  refine ⟨?_, ?_, ?_⟩ <;>
    cases t <;>
      simp [QuadTree.clear, QuadTree.boundary, QuadTree.capacity, QuadTree.retrieve]

/-- C9: `circleCollision` is true exactly when the center distance is
strictly below the sum of the two (defaulted) radii; in particular true for
centers `(0,0)`, `(7,0)` with radii `5`, `3`, and false at `(9,0)`. -/
theorem C9_circleCollision_exact :
    (∀ a b : RawCircle,
      circleCollision a b = true ↔
        Real.sqrt (((a.x - b.x) * (a.x - b.x) + (a.y - b.y) * (a.y - b.y) : ℚ) : ℝ) <
          ((jsOr a.radius 2 + jsOr b.radius 2 : ℚ) : ℝ)) ∧
      circleCollision ⟨0, 0, some 5⟩ ⟨7, 0, some 3⟩ = true ∧
      circleCollision ⟨0, 0, some 5⟩ ⟨9, 0, some 3⟩ = false := by
  refine ⟨circleCollision_eq_sqrt, ?_, ?_⟩ <;> norm_num [circleCollision, jsOr]

/-- C10: with `USE_QUADTREE` disabled, `update` and `checkCollisions` are
no-ops: the engine (hence its tree) is unchanged and no callback fires. -/
theorem C10_disabled_noop (e : Engine) (gs : GameState) (fuel : ℕ)
    (h : e.useQuadTree = false) :
    Engine.update fuel e gs = some e ∧ Engine.checkCollisions e gs = [] := by
  constructor <;> simp [Engine.update, Engine.checkCollisions, h]

/-- Witness for C10 at a concrete disabled engine and snapshot. -/
theorem C10_witness :
    Engine.update 5 ⟨false, QuadTree.leaf ⟨0, 0, 1000, 1000⟩ 4 []⟩
        ⟨[⟨1, 2, none⟩], [⟨3, 4⟩]⟩ =
        some ⟨false, QuadTree.leaf ⟨0, 0, 1000, 1000⟩ 4 []⟩ ∧
      Engine.checkCollisions ⟨false, QuadTree.leaf ⟨0, 0, 1000, 1000⟩ 4 []⟩
        ⟨[⟨1, 2, none⟩], [⟨3, 4⟩]⟩ = [] :=
  C10_disabled_noop _ _ 5 rfl

/-- Each circle is retrieved at most as often as it is stored. -/
lemma retrieve_count_le (q x : Circle) : ∀ (t : QuadTree),
    (t.retrieve q []).count x ≤ t.storedList.count x := by
  intro t
  induction t with
  | leaf b cap objs =>
    simp only [QuadTree.retrieve, QuadTree.storedList]
    by_cases hb : b.intersects q = true
    · simp [if_pos hb]
    · simp [if_neg hb]
  | node b cap objs ne nw se sw ihne ihnw ihse ihsw =>
    by_cases hb : b.intersects q = true
    · rw [retrieve_node_decomp b cap objs ne nw se sw q hb]
      simp only [QuadTree.storedList, List.count_append]
      omega
    · simp only [QuadTree.retrieve, if_neg hb]
      simp

/-- Under well-formedness, a stored circle overlapping the query is
retrieved exactly as often as it is stored: the `intersects` prune never
loses it. -/
lemma retrieve_count_eq (q x : Circle) (hrx : 0 ≤ x.radius) (hrq : 0 ≤ q.radius)
    (hov : circlesOverlap x q) : ∀ (t : QuadTree), t.wf →
    (t.retrieve q []).count x = t.storedList.count x := by
  intro t
  induction t with
  | leaf b cap objs =>
    intro hwf
    by_cases hb : b.intersects q = true
    · simp [QuadTree.retrieve, QuadTree.storedList, if_pos hb]
    · have hnotmem : x ∉ objs := by
        intro hmem
        have hin : containedIn b x := (contains_iff b x).1 (hwf.2 x hmem)
        exact hb (intersects_of_overlap b x q hin hrx hrq hov)
      simp only [QuadTree.retrieve, QuadTree.storedList, if_neg hb]
      simp [List.count_eq_zero.2 hnotmem]
  | node b cap objs ne nw se sw ihne ihnw ihse ihsw =>
    intro hwf
    have hwf2 := hwf
    obtain ⟨hown, hrects, hwne, hwnw, hwse, hwsw⟩ := hwf2
    by_cases hb : b.intersects q = true
    · rw [retrieve_node_decomp b cap objs ne nw se sw q hb]
      simp only [QuadTree.storedList, List.count_append]
      rw [ihne hwne, ihnw hwnw, ihse hwse, ihsw hwsw]
    · have hnotmem : x ∉ (QuadTree.node b cap objs ne nw se sw).storedList := by
        intro hmem
        have hin : containedIn b x := by
          have h := stored_containedIn (QuadTree.node b cap objs ne nw se sw) hwf x hmem
          simpa [QuadTree.boundary] using h
        exact hb (intersects_of_overlap b x q hin hrx hrq hov)
      simp only [QuadTree.retrieve, if_neg hb]
      simp [List.count_eq_zero.2 hnotmem]

/-- A covering query visits every node, so retrieval returns exactly the
stored list. -/
lemma retrieve_all_of_cover (B : Rectangle) (q : Circle)
    (hqx : q.x = B.x + B.width / 2) (hqy : q.y = B.y + B.height / 2)
    (hrad : 0 ≤ q.radius)
    (hd : B.width * B.width + B.height * B.height ≤ (2 * q.radius) * (2 * q.radius)) :
    ∀ (t : QuadTree), t.wf → rectInRect t.boundary B →
      t.retrieve q [] = t.storedList := by
  intro t
  induction t with
  | leaf b cap objs =>
    intro hwf hrin
    have hb : b.intersects q = true :=
      intersects_of_cover B b q (by simpa [QuadTree.boundary] using hrin)
        hwf.1.1 hwf.1.2 hqx hqy hrad hd
    simp [QuadTree.retrieve, QuadTree.storedList, if_pos hb]
  | node b cap objs ne nw se sw ihne ihnw ihse ihsw =>
    intro hwf hrin
    obtain ⟨⟨⟨hw0, hh0⟩, hobjs⟩, ⟨hrne, hrnw, hrse, hrsw⟩, hwne, hwnw, hwse, hwsw⟩ := hwf
    have hrinb : rectInRect b B := by simpa [QuadTree.boundary] using hrin
    have hb : b.intersects q = true :=
      intersects_of_cover B b q hrinb hw0 hh0 hqx hqy hrad hd
    rw [retrieve_node_decomp b cap objs ne nw se sw q hb]
    rw [ihne hwne (rectInRect_trans _ _ _ hrne hrinb),
      ihnw hwnw (rectInRect_trans _ _ _ hrnw hrinb),
      ihse hwse (rectInRect_trans _ _ _ hrse hrinb),
      ihsw hwsw (rectInRect_trans _ _ _ hrsw hrinb)]
    rfl

/-- C4: after any insert sequence into an index with bounds `B`, retrieving
with a query circle at `B`'s center whose radius is at least half of `B`'s
diagonal returns every circle whose insert returned true. -/
theorem C4_covering_query_returns_all (B : Rectangle) (cap fuel : ℕ)
    (cs : List Circle) (t : QuadTree) (acc : List Circle) (r : ℚ)
    (hins : QuadTree.insertAll fuel (QuadTree.leaf B cap []) cs = some (t, acc))
    (hw : 0 ≤ B.width) (hh : 0 ≤ B.height) (hr : 0 ≤ r)
    (hd : B.width * B.width + B.height * B.height ≤ (2 * r) * (2 * r))
    (c : Circle) (hc : c ∈ acc) :
    c ∈ t.retrieve ⟨B.x + B.width / 2, B.y + B.height / 2, r⟩ [] := by
  obtain ⟨hb, -, hst, -, hwf, -, -⟩ := insertAll_master fuel cs _ t acc hins
  have hwft : t.wf := hwf (fresh_leaf_wf B cap hw hh)
  have hbB : t.boundary = B := by simpa [QuadTree.boundary] using hb
  rw [retrieve_all_of_cover B ⟨B.x + B.width / 2, B.y + B.height / 2, r⟩ rfl rfl hr hd
    t hwft (by rw [hbB]; exact rectInRect_refl B)]
  have hcs : c ∈ t.stored := by
    rw [hst]
    simp only [QuadTree.stored, QuadTree.storedList, Multiset.coe_nil, zero_add]
    exact Multiset.mem_coe.2 hc
  simpa [QuadTree.stored, Multiset.mem_coe] using hcs

/-- Witness for C4 at a concrete index and insert. -/
theorem C4_witness :
    (⟨10, 10, 2⟩ : Circle) ∈
      (QuadTree.leaf ⟨0, 0, 100, 100⟩ 1 [⟨10, 10, 2⟩]).retrieve
        ⟨0 + 100 / 2, 0 + 100 / 2, 80⟩ [] := by
  refine C4_covering_query_returns_all ⟨0, 0, 100, 100⟩ 1 1 [⟨10, 10, 2⟩] _
    [⟨10, 10, 2⟩] 80 ?_ (by norm_num) (by norm_num) (by norm_num) (by norm_num)
    ⟨10, 10, 2⟩ (by simp)
  norm_num [QuadTree.insertAll, QuadTree.insert, QuadTree.boundary, QuadTree.objects,
    QuadTree.capacity, QuadTree.pushObj, Rectangle.contains]

/-- C5: the broad phase is sound — every stored circle geometrically
overlapping the query circle is returned by `retrieve`. -/
theorem C5_retrieve_broadphase_sound (B : Rectangle) (cap fuel : ℕ)
    (cs : List Circle) (t : QuadTree) (acc : List Circle) (q x : Circle)
    (hins : QuadTree.insertAll fuel (QuadTree.leaf B cap []) cs = some (t, acc))
    (hw : 0 ≤ B.width) (hh : 0 ≤ B.height)
    (hradii : ∀ z ∈ cs, 0 ≤ z.radius) (hrq : 0 ≤ q.radius)
    (hx : x ∈ t.stored) (hov : circlesOverlap x q) :
    x ∈ t.retrieve q [] := by
  obtain ⟨-, -, hst, hsub, hwf, -, -⟩ := insertAll_master fuel cs _ t acc hins
  have hwft : t.wf := hwf (fresh_leaf_wf B cap hw hh)
  have hxl : x ∈ t.storedList := by
    simpa [QuadTree.stored, Multiset.mem_coe] using hx
  have hrx : 0 ≤ x.radius := by
    have hacc : x ∈ acc := by
      rw [hst] at hx
      simp only [QuadTree.stored, QuadTree.storedList, Multiset.coe_nil, zero_add] at hx
      exact Multiset.mem_coe.1 hx
    exact hradii x (hsub.subset hacc)
  have hcount := retrieve_count_eq q x hrx hrq hov t hwft
  have hpos : 0 < (t.retrieve q []).count x := by
    rw [hcount]
    exact List.count_pos_iff.2 hxl
  exact List.count_pos_iff.1 hpos

/-- Witness for C5 at a concrete index, insert and query. -/
theorem C5_witness :
    (⟨10, 10, 2⟩ : Circle) ∈
      (QuadTree.leaf ⟨0, 0, 100, 100⟩ 4 [⟨10, 10, 2⟩]).retrieve ⟨12, 10, 1⟩ [] := by
  refine C5_retrieve_broadphase_sound ⟨0, 0, 100, 100⟩ 4 1 [⟨10, 10, 2⟩] _
    [⟨10, 10, 2⟩] ⟨12, 10, 1⟩ ⟨10, 10, 2⟩ ?_ (by norm_num) (by norm_num)
    ?_ (by norm_num) ?_ ?_
  · norm_num [QuadTree.insertAll, QuadTree.insert, QuadTree.boundary, QuadTree.objects,
      QuadTree.capacity, QuadTree.pushObj, Rectangle.contains]
  · intro z hz
    simp only [List.mem_singleton] at hz
    subst hz
    norm_num
  · simp [QuadTree.stored, QuadTree.storedList]
  · norm_num [circlesOverlap]

/-- C6: after any sequence of inserts (no intervening clear) into a tree
whose leaves respect their capacities, every leaf still holds at most its
configured capacity. -/
theorem C6_leaf_capacity (fuel : ℕ) (cs : List Circle) (t0 t : QuadTree)
    (acc : List Circle) (h0 : t0.leafCapOk)
    (hins : QuadTree.insertAll fuel t0 cs = some (t, acc)) :
    t.leafCapOk :=
  (insertAll_master fuel cs t0 t acc hins).2.2.2.2.2.1 h0

/-- Witness for C6: two inserts into a capacity-1 index force a subdivision
and the resulting leaves hold at most one circle each. -/
theorem C6_witness :
    (QuadTree.node ⟨0, 0, 100, 100⟩ 1 [⟨10, 10, 2⟩]
      (QuadTree.leaf ⟨50, 0, 50, 50⟩ 1 [])
      (QuadTree.leaf ⟨0, 0, 50, 50⟩ 1 [])
      (QuadTree.leaf ⟨50, 50, 50, 50⟩ 1 [⟨80, 80, 2⟩])
      (QuadTree.leaf ⟨0, 50, 50, 50⟩ 1 [])).leafCapOk := by
  refine C6_leaf_capacity 2 [⟨10, 10, 2⟩, ⟨80, 80, 2⟩]
    (QuadTree.leaf ⟨0, 0, 100, 100⟩ 1 []) _ [⟨10, 10, 2⟩, ⟨80, 80, 2⟩]
    (by simp [QuadTree.leafCapOk]) ?_
  norm_num [QuadTree.insertAll, QuadTree.insert, QuadTree.boundary, QuadTree.objects,
    QuadTree.capacity, QuadTree.pushObj, QuadTree.childrenOrSub, subChildren,
    QuadTree.withChildren, Rectangle.contains]

/-- On trees whose divided nodes are full, the spec-side insert contract
computes exactly what the code's insert computes. -/
lemma insertSpec_eq_insert : ∀ (fuel : ℕ) (t : QuadTree) (c : Circle),
    t.dividedFull → insertSpec fuel t c = QuadTree.insert fuel t c := by
  intro fuel
  induction fuel with
  | zero => intro t c hdf; rfl
  | succ fuel ih =>
    intro t c hdf
    rw [insertSpec, QuadTree.insert]
    by_cases hcont : t.boundary.contains c = false
    · rw [if_pos hcont, if_pos hcont]
    · rw [if_neg hcont, if_neg hcont]
      by_cases hlen : t.objects.length < t.capacity
      · have hdiv : t.divided = false := by
          cases t with
          | leaf b cap objs => rfl
          | node b cap objs a2 b2 c2 d2 =>
            exact absurd hlen (Nat.not_lt.2 hdf.1)
        rw [if_pos ⟨hdiv, hlen⟩, if_pos hlen]
      · rw [if_neg (fun hc => hlen hc.2), if_neg hlen]
        rcases hco : t.childrenOrSub with ⟨ne, nw, se, sw⟩
        dsimp only []
        obtain ⟨hdfne, hdfnw, hdfse, hdfsw⟩ :=
          childrenOrSub_dividedFull t ne nw se sw hdf hco
        rw [← ih ne c hdfne]
        rcases h1 : insertSpec fuel ne c with - | ⟨ne2, ok1⟩
        · rfl
        cases ok1 with
        | true => rfl
        | false =>
          dsimp only []
          rw [← ih nw c hdfnw]
          rcases h2 : insertSpec fuel nw c with - | ⟨nw2, ok2⟩
          · rfl
          cases ok2 with
          | true => rfl
          | false =>
            dsimp only []
            rw [← ih se c hdfse]
            rcases h3 : insertSpec fuel se c with - | ⟨se2, ok3⟩
            · rfl
            cases ok3 with
            | true => rfl
            | false =>
              dsimp only []
              rw [← ih sw c hdfsw]

/-- Reachable trees (built by inserts and clears from an empty index)
have all divided nodes full. -/
lemma reachable_dividedFull (t : QuadTree) (h : t.Reachable) : t.dividedFull := by
  obtain ⟨b, cap, fuel, cs, acc, hins⟩ := h
  exact (insertAll_master fuel cs _ t acc hins).2.2.2.2.2.2 trivial

/-- C8: on every reachable quad-tree state, the code's `insert` follows the
spec's contract — reject on `contains` failure, append when a leaf with
room, otherwise subdivide if needed and try NE, NW, SE, SW in order,
short-circuiting on the first acceptance. -/
theorem C8_insert_contract (t : QuadTree) (h : t.Reachable) (fuel : ℕ) (c : Circle) :
    insertSpec fuel t c = QuadTree.insert fuel t c :=
  insertSpec_eq_insert fuel t c (reachable_dividedFull t h)

/-- Witness for C8 at a concrete reachable tree. -/
theorem C8_witness :
    insertSpec 3 (QuadTree.leaf ⟨0, 0, 100, 100⟩ 4 []) ⟨5, 5, 1⟩ =
      QuadTree.insert 3 (QuadTree.leaf ⟨0, 0, 100, 100⟩ 4 []) ⟨5, 5, 1⟩ :=
  C8_insert_contract _ ⟨⟨0, 0, 100, 100⟩, 4, 1, [], [], rfl⟩ 3 ⟨5, 5, 1⟩

lemma jsOr_none (d : ℚ) : jsOr none d = d := rfl

lemma jsOr_some_ne (v d : ℚ) (h : v ≠ 0) : jsOr (some v) d = v := by
  unfold jsOr
  exact if_neg h

lemma jsOr_twelve_ne_zero (v : Option ℚ) : jsOr v 12 ≠ 0 := by
  cases v with
  | none => norm_num [jsOr]
  | some r =>
    by_cases hr : r = 0
    · simp [jsOr, hr]
    · simp [jsOr, hr]

/-- The narrow phase on a player's stored circle is exactly
`hitQualifies`. -/
lemma collide_playerCircle (pr : Projectile) (p : Player) :
    (circleCollision (projectileRaw pr) (circleRaw (playerCircle p)) = true) ↔
      hitQualifies pr p := by
  have hnz := jsOr_twelve_ne_zero p.radius
  simp only [circleCollision, projectileRaw, circleRaw, playerCircle,
    Bool.and_eq_true, decide_eq_true_eq, jsOr_none,
    jsOr_some_ne (jsOr p.radius 12) 2 hnz]
  unfold hitQualifies
  constructor
  · rintro ⟨ha, hb⟩
    exact ⟨by linarith, by linarith [hb]⟩
  · rintro ⟨ha, hb⟩
    exact ⟨by linarith, by linarith [hb]⟩

/-- A qualifying player's stored circle overlaps the probe circle. -/
lemma qualify_overlap (pr : Projectile) (p : Player) (h : hitQualifies pr p) :
    circlesOverlap (playerCircle p) ⟨pr.x, pr.y, 2⟩ := by
  obtain ⟨h1, h2⟩ := h
  unfold circlesOverlap playerCircle
  dsimp only []
  linarith [h2]

lemma checkCollisions_single (t : QuadTree) (ps : List Player) (pr : Projectile) :
    Engine.checkCollisions ⟨true, t⟩ ⟨ps, [pr]⟩ =
      (projectileHits t pr).map (fun tgt => (pr, tgt)) := by
  simp [Engine.checkCollisions]

lemma countP_eq_count (l : List Circle) (c : Circle) :
    l.countP (fun x => decide (x = c)) = l.count c := by
  rfl

/-- C1 (amended): in the end-to-end scenario — world bounds
`(0,0,1000,1000)`, capacity 4, five players clustered in a 50×50 box, one
projectile at the cluster centroid — PROVIDED every insert performed by
`update` succeeds, the players' effective radii are nonnegative and no
player's stored circle coincides with the projectile's circle,
`checkCollisions` invokes the callback exactly once per qualifying
(projectile, player) occurrence and never for a non-qualifying player. -/
theorem C1_endtoend_amended (ps : List Player) (pr : Projectile) (fuel : ℕ)
    (t : QuadTree)
    (hcount : ps.length = 5)
    (hbox : ∃ x0 y0 : ℚ, ∀ p ∈ ps,
      x0 ≤ p.x ∧ p.x ≤ x0 + 50 ∧ y0 ≤ p.y ∧ p.y ≤ y0 + 50)
    (hcx : 5 * pr.x = (ps.map (fun p => p.x)).sum)
    (hcy : 5 * pr.y = (ps.map (fun p => p.y)).sum)
    (hrad : ∀ p ∈ ps, 0 ≤ jsOr p.radius 12)
    (hne : ∀ p ∈ ps, playerCircle p ≠ projectileCircle pr)
    (hacc : QuadTree.insertAll fuel (QuadTree.leaf ⟨0, 0, 1000, 1000⟩ 4 [])
      (ps.map playerCircle ++ [projectileCircle pr]) =
      some (t, ps.map playerCircle ++ [projectileCircle pr])) :
    Engine.update fuel ⟨true, QuadTree.leaf ⟨0, 0, 1000, 1000⟩ 4 []⟩ ⟨ps, [pr]⟩ =
        some ⟨true, t⟩ ∧
      ∀ p ∈ ps,
        (hitQualifies pr p →
          ((Engine.checkCollisions ⟨true, t⟩ ⟨ps, [pr]⟩).filter
            (fun h => decide (h.2 = playerCircle p))).length =
            (ps.filter (fun p2 => decide (playerCircle p2 = playerCircle p))).length) ∧
        (¬ hitQualifies pr p →
          ((Engine.checkCollisions ⟨true, t⟩ ⟨ps, [pr]⟩).filter
            (fun h => decide (h.2 = playerCircle p))).length = 0) := by
  obtain ⟨-, -, hst, -, hwf, -, -⟩ :=
    insertAll_master fuel (ps.map playerCircle ++ [projectileCircle pr]) _ t _ hacc
  have hwft : t.wf := hwf (fresh_leaf_wf _ _ (by norm_num) (by norm_num))
  have hstored : t.stored = ↑(ps.map playerCircle ++ [projectileCircle pr]) := by
    rw [hst]
    simp [QuadTree.stored, QuadTree.storedList]
  constructor
  · simp only [Engine.update]
    rw [if_neg (by simp)]
    simp only [QuadTree.clear, List.map_cons, List.map_nil]
    rw [hacc]
  · intro p hp
    have hcnt_chain :
        ((Engine.checkCollisions ⟨true, t⟩ ⟨ps, [pr]⟩).filter
          (fun h => decide (h.2 = playerCircle p))).length =
        (t.retrieve ⟨pr.x, pr.y, 2⟩ []).countP
          (fun tgt => decide (tgt = playerCircle p) &&
            circleCollision (projectileRaw pr) (circleRaw tgt)) := by
      rw [checkCollisions_single]
      rw [← List.countP_eq_length_filter, List.countP_map, projectileHits,
        List.countP_filter]
      rfl
    constructor
    · intro hq
      rw [hcnt_chain]
      have hcong : (t.retrieve ⟨pr.x, pr.y, 2⟩ []).countP
          (fun tgt => decide (tgt = playerCircle p) &&
            circleCollision (projectileRaw pr) (circleRaw tgt)) =
          (t.retrieve ⟨pr.x, pr.y, 2⟩ []).countP
            (fun tgt => decide (tgt = playerCircle p)) := by
        apply List.countP_congr
        intro a ha
        by_cases hac : a = playerCircle p
        · subst hac
          simp [(collide_playerCircle pr p).2 hq]
        · simp [hac]
      rw [hcong, countP_eq_count]
      have hceq := retrieve_count_eq ⟨pr.x, pr.y, 2⟩ (playerCircle p)
        (hrad p hp) (by norm_num) (qualify_overlap pr p hq) t hwft
      rw [hceq]
      have hcnt2 : t.storedList.count (playerCircle p) =
          (ps.map playerCircle ++ [projectileCircle pr]).count (playerCircle p) := by
        have h2 : Multiset.count (playerCircle p) t.stored =
            Multiset.count (playerCircle p)
              ↑(ps.map playerCircle ++ [projectileCircle pr]) := by rw [hstored]
        simpa [QuadTree.stored, Multiset.coe_count] using h2
      rw [hcnt2, List.count_append]
      have hproj0 : ([projectileCircle pr] : List Circle).count (playerCircle p) = 0 := by
        simp [List.count_singleton]
        intro hcontra
        exact absurd hcontra.symm (hne p hp)
      rw [hproj0, Nat.add_zero]
      rw [← countP_eq_count, List.countP_map, ← List.countP_eq_length_filter]
      rfl
    · intro hq
      rw [hcnt_chain]
      rw [List.countP_eq_zero]
      intro a ha
      by_cases hac : a = playerCircle p
      · subst hac
        simp only [Bool.and_eq_true, decide_eq_true_eq, not_and]
        intro _
        exact fun hcol => hq ((collide_playerCircle pr p).1 hcol)
      · simp [hac]

/-- C1 counterexample: in the stated scenario (bounds `(0,0,1000,1000)`,
capacity 4, five players inside a 50×50 box, projectile at the centroid),
the fifth player straddles both subdivision midlines, its insert fails, and
`checkCollisions` never invokes the callback for that qualifying
(projectile, player) pair. -/
theorem C1_counterexample :
    (∀ p ∈ cexPlayers, 480 ≤ p.x ∧ p.x ≤ 480 + 50 ∧ 480 ≤ p.y ∧ p.y ≤ 480 + 50) ∧
      5 * cexProj.x = (cexPlayers.map (fun p => p.x)).sum ∧
      5 * cexProj.y = (cexPlayers.map (fun p => p.y)).sum ∧
      Engine.update 2 ⟨true, QuadTree.leaf ⟨0, 0, 1000, 1000⟩ 4 []⟩
        ⟨cexPlayers, [cexProj]⟩ = some ⟨true, cexTree⟩ ∧
      (⟨500, 500, none⟩ : Player) ∈ cexPlayers ∧
      hitQualifies cexProj ⟨500, 500, none⟩ ∧
      ((Engine.checkCollisions ⟨true, cexTree⟩ ⟨cexPlayers, [cexProj]⟩).filter
        (fun h => decide (h.2 = playerCircle ⟨500, 500, none⟩))).length = 0 ∧
      ¬ ((Engine.checkCollisions ⟨true, cexTree⟩ ⟨cexPlayers, [cexProj]⟩).filter
        (fun h => decide (h.2 = playerCircle ⟨500, 500, none⟩))).length = 1 := by
  refine ⟨?_, ?_, ?_, ?_, ?_, ?_, ?_, ?_⟩
  · intro p hp
    fin_cases hp <;> norm_num [cexPlayers]
  · norm_num [cexPlayers, cexProj]
  · norm_num [cexPlayers, cexProj]
  · norm_num [Engine.update, QuadTree.insertAll, QuadTree.insert, QuadTree.clear,
      QuadTree.boundary, QuadTree.objects, QuadTree.capacity, QuadTree.pushObj,
      QuadTree.childrenOrSub, QuadTree.withChildren, subChildren, Rectangle.contains,
      cexPlayers, cexProj, cexTree, playerCircle, projectileCircle, jsOr]
  · simp [cexPlayers]
  · norm_num [hitQualifies, cexProj, jsOr]
  · norm_num [Engine.checkCollisions, cexPlayers, cexProj, cexTree, projectileHits,
      QuadTree.retrieve, Rectangle.intersects, circleCollision, circleRaw,
      projectileRaw, playerCircle, jsOr]
  · norm_num [Engine.checkCollisions, cexPlayers, cexProj, cexTree, projectileHits,
      QuadTree.retrieve, Rectangle.intersects, circleCollision, circleRaw,
      projectileRaw, playerCircle, jsOr]

/-- Witness for the amended C1 at a cluster that avoids the midlines. -/
theorem C1_witness :
    ((Engine.checkCollisions ⟨true, witTree⟩ ⟨witPlayers, [witProj]⟩).filter
      (fun h => decide (h.2 = playerCircle ⟨105, 105, none⟩))).length =
      (witPlayers.filter
        (fun p2 => decide (playerCircle p2 = playerCircle ⟨105, 105, none⟩))).length := by
  refine ((C1_endtoend_amended witPlayers witProj 2 witTree rfl
    ⟨80, 80, ?_⟩ ?_ ?_ ?_ ?_ ?_).2 ⟨105, 105, none⟩ ?_).1 ?_
  · intro p hp
    fin_cases hp <;> norm_num [witPlayers]
  · norm_num [witPlayers, witProj]
  · norm_num [witPlayers, witProj]
  · intro p hp
    fin_cases hp <;> norm_num [jsOr]
  · intro p hp
    fin_cases hp <;>
      simp [playerCircle, projectileCircle, witProj, jsOr, Circle.mk.injEq]
  · norm_num [QuadTree.insertAll, QuadTree.insert, QuadTree.boundary, QuadTree.objects,
      QuadTree.capacity, QuadTree.pushObj, QuadTree.childrenOrSub,
      QuadTree.withChildren, subChildren, Rectangle.contains, witPlayers, witProj,
      witTree, playerCircle, projectileCircle, jsOr]
  · simp [witPlayers]
  · norm_num [hitQualifies, witProj, jsOr]

lemma containsJ_shipped (c : Circle) : shippedBoundary.containsJ c = false := by
  simp [JRect.containsJ, shippedBoundary, jadd, jsub, jle, jge, jval, jnan]

lemma intersectsJ_shipped (c : Circle) : shippedBoundary.intersectsJ c = false := by
  simp [JRect.intersectsJ, shippedBoundary, jadd, jsub, jmul, jhalf, jabs, jle, jlt,
    jgt, jge, jval, jnan]

lemma insertJ_shipped (fuel : ℕ) (c : Circle) :
    QuadTreeJ.insert (fuel + 1) shippedTree c = some (shippedTree, false) := by
  rw [QuadTreeJ.insert]
  rw [if_pos]
  simp only [QuadTreeJ.boundary, shippedTree]
  exact containsJ_shipped c

lemma insertAllJ_shipped (fuel : ℕ) :
    ∀ cs : List Circle,
      QuadTreeJ.insertAll (fuel + 1) shippedTree cs = some (shippedTree, []) := by
  intro cs
  induction cs with
  | nil => rfl
  | cons c cs ih =>
    rw [QuadTreeJ.insertAll, insertJ_shipped fuel c]
    dsimp only []
    rw [ih]
    simp

lemma retrieveJ_shipped (c : Circle) (found : List Circle) :
    QuadTreeJ.retrieve shippedTree c found = found := by
  rw [show shippedTree = QuadTreeJ.leaf shippedBoundary 4 [] from rfl,
    QuadTreeJ.retrieve]
  rw [if_neg]
  rw [intersectsJ_shipped c]
  simp

lemma flatMap_const_nil (l : List Projectile) :
    (l.flatMap (fun _ => ([] : List (Projectile × Circle)))) = [] := by
  induction l with
  | nil => rfl
  | cons a l ih => simp [ih]

/-- C2: with the shipped `COLLISION_WORLD_BOUNDS = { x: 0 }`, the static
quad tree's boundary has undefined `y`, `width`, `height`; `contains` and
`intersects` are false for every circle, every insert performed by `update`
returns false and leaves the empty tree unchanged, every retrieve returns
its accumulator unchanged (an empty candidate list in `checkCollisions`),
and the hit callback is never invoked for any game state. -/
theorem C2_shipped_bounds_dead :
    (∀ c : Circle, shippedBoundary.containsJ c = false) ∧
      (∀ c : Circle, shippedBoundary.intersectsJ c = false) ∧
      shippedTree.clear = shippedTree ∧
      (∀ (fuel : ℕ) (c : Circle),
        QuadTreeJ.insert (fuel + 1) shippedTree c = some (shippedTree, false)) ∧
      (∀ (fuel : ℕ) (gs : GameState),
        EngineJ.update (fuel + 1) shippedEngine gs = some shippedEngine) ∧
      (∀ (c : Circle) (found : List Circle),
        QuadTreeJ.retrieve shippedTree c found = found) ∧
      (∀ gs : GameState, EngineJ.checkCollisions shippedEngine gs = []) := by
  refine ⟨containsJ_shipped, intersectsJ_shipped, rfl, insertJ_shipped, ?_, 
    retrieveJ_shipped, ?_⟩
  · intro fuel gs
    simp only [EngineJ.update, shippedEngine]
    rw [if_neg (by simp)]
    rw [show shippedTree.clear = shippedTree from rfl]
    rw [insertAllJ_shipped fuel]
  · intro gs
    simp only [EngineJ.checkCollisions, shippedEngine]
    rw [if_neg (by simp)]
    have hh : ∀ p : Projectile,
        (projectileHitsJ shippedTree p).map (fun tgt => (p, tgt)) = [] := by
      intro p
      simp [projectileHitsJ, retrieveJ_shipped]
    have hfm : ∀ l : List Projectile,
        (l.flatMap (fun p => (projectileHitsJ shippedTree p).map (fun tgt => (p, tgt)))) =
          [] := by
      intro l
      induction l with
      | nil => rfl
      | cons a l ih => simp [ih, hh a]
    exact hfm gs.projectiles

end Collision
